import Mathlib

set_option linter.unusedSectionVars false

/-!
Shallow embedding of the `union_find_rs` disjoint-set library
(`src/hash_disjoint_set.rs`, `src/error.rs`, ticket equality from `src/lib.rs`).

The Rust `HashMap<&T, usize>` registry is modelled as an association list,
the `Vec<Unit>` forest as a `List Unit`, and the iterative `find_internal`
loop as a fuel-indexed recursion (the fuel `set.length` is shown sufficient
on well-formed states).  Machine integers (`usize`) are modelled as `Nat`;
none of the arithmetic in the source can overflow before memory is exhausted,
and the one place the source can hit a `usize` division by zero
(`all_subsets` / `subset_containing` computing `set.len() / subset_count`)
is modelled explicitly as an `Option` panic result.
-/

namespace UnionFindRs

/-- Error type of `src/error.rs` (`HashDisjointSetError`). -/
inductive HashDisjointSetError where
  | ElementNotDefined
  | DuplicateElement
deriving DecidableEq, Repr

/-- Forest node, `struct Unit` in `src/hash_disjoint_set.rs`: `size` is only
meaningful at a root, `parent` is the index of the parent node. -/
structure Unit where
  size : Nat
  parent : Nat
deriving DecidableEq, Repr

/-- Read `set[i].parent`.  Out-of-bounds reads panic in Rust; on well-formed
states every read is in bounds, so the default value is never consulted. -/
def parentAt (set : List Unit) (i : Nat) : Nat := (set.getD i ⟨0, 0⟩).parent

/-- Read `set[i].size`. -/
def sizeAt (set : List Unit) (i : Nat) : Nat := (set.getD i ⟨0, 0⟩).size

/-- Write `set[i].parent = p`, keeping the size field. -/
def setParent (set : List Unit) (i p : Nat) : List Unit :=
  set.set i ⟨sizeAt set i, p⟩

/-- Write `set[i].size = sz`, keeping the parent field. -/
def setSize (set : List Unit) (i sz : Nat) : List Unit :=
  set.set i ⟨sz, parentAt set i⟩

/-- The `while` loop of `HashDisjointSet::find_internal`, fuel-indexed:

```text
while set[elem].parent != elem {
    let grandparent = set[elem].parent;
    set[elem].parent = set[grandparent].parent;
    elem = grandparent;
}
```

Each iteration rewrites the parent of the current node to its grandparent
(path splitting) and advances to the old parent.  On well-formed states a
fuel of `set.length` is proved sufficient (`findInternal_spec`). -/
def findInternal : Nat → List Unit → Nat → Nat × List Unit
  | 0, set, elem => (elem, set)
  | fuel + 1, set, elem =>
    if parentAt set elem = elem then (elem, set)
    else
      let grandparent := parentAt set elem
      findInternal fuel (setParent set elem (parentAt set grandparent)) grandparent

/-- Opaque subset ticket (`SubsetTicket` of `src/lib.rs`): version, resolved
root index, and the identity of the producing instance.  Its `PartialEq`
compares all three fields, which is exactly structural equality here. -/
structure SubsetTicket where
  ver : Nat
  id : Nat
  set_id : Nat
deriving DecidableEq, Repr

/-- The instance state (`struct HashDisjointSet`). -/
structure HashDisjointSet (α : Type) where
  ver : Nat
  map : List (α × Nat)
  set : List Unit
  subset_count : Nat
  set_id : Nat
deriving DecidableEq

variable {α : Type} [DecidableEq α]

/-- Association-list model of `HashMap::get` in `HashDisjointSet::index`. -/
def lookupIdx : List (α × Nat) → α → Option Nat
  | [], _ => none
  | (k, v) :: rest, e => if k = e then some v else lookupIdx rest e

/-- The `union` operation; returns the result paired with the poststate. -/
def union (s : HashDisjointSet α) (elem_a elem_b : α) :
    Except HashDisjointSetError PUnit.{1} × HashDisjointSet α :=
  match lookupIdx s.map elem_a with
  | none => (Except.error HashDisjointSetError.ElementNotDefined, s)
  | some a_i =>
    match lookupIdx s.map elem_b with
    | none => (Except.error HashDisjointSetError.ElementNotDefined, s)
    | some b_i =>
      let fa := findInternal s.set.length s.set a_i
      let fb := findInternal fa.2.length fa.2 b_i
      if fa.1 = fb.1 then (Except.ok PUnit.unit, { s with set := fb.2 })
      else
        let root_a := if sizeAt fb.2 fa.1 < sizeAt fb.2 fb.1 then fb.1 else fa.1
        let root_b := if sizeAt fb.2 fa.1 < sizeAt fb.2 fb.1 then fa.1 else fb.1
        let set3 := setParent fb.2 root_b root_a
        let set4 := setSize set3 root_a (sizeAt set3 root_a + sizeAt set3 root_b)
        (Except.ok PUnit.unit,
          { s with set := set4, subset_count := s.subset_count - 1, ver := s.ver + 1 })

/-- The `find` operation: resolve, compress, and issue a ticket carrying the
current version, the resolved root, and the instance identity. -/
def find (s : HashDisjointSet α) (elem : α) :
    Except HashDisjointSetError SubsetTicket × HashDisjointSet α :=
  match lookupIdx s.map elem with
  | none => (Except.error HashDisjointSetError.ElementNotDefined, s)
  | some i =>
    let f := findInternal s.set.length s.set i
    (Except.ok ⟨s.ver, f.1, s.set_id⟩, { s with set := f.2 })

/-- The `same_subset` operation. -/
def same_subset (s : HashDisjointSet α) (elem_a elem_b : α) :
    Except HashDisjointSetError Bool × HashDisjointSet α :=
  match lookupIdx s.map elem_a with
  | none => (Except.error HashDisjointSetError.ElementNotDefined, s)
  | some a_i =>
    match lookupIdx s.map elem_b with
    | none => (Except.error HashDisjointSetError.ElementNotDefined, s)
    | some b_i =>
      let fa := findInternal s.set.length s.set a_i
      let fb := findInternal fa.2.length fa.2 b_i
      (Except.ok (decide (fa.1 = fb.1)), { s with set := fb.2 })

/-- The `subset_size` operation: size field of the resolved root. -/
def subset_size (s : HashDisjointSet α) (elem : α) :
    Except HashDisjointSetError Nat × HashDisjointSet α :=
  match lookupIdx s.map elem with
  | none => (Except.error HashDisjointSetError.ElementNotDefined, s)
  | some i =>
    let f := findInternal s.set.length s.set i
    (Except.ok (sizeAt f.2 f.1), { s with set := f.2 })

/-- Scan of the registry in `subset_containing`: compress every registered
index in turn and keep the elements whose root matches `root`. -/
def subsetFold (root : Nat) : List (α × Nat) → List Unit → List α × List Unit
  | [], set => ([], set)
  | (e, i) :: rest, set =>
    let f := findInternal set.length set i
    let r := subsetFold root rest f.2
    (if root = f.1 then e :: r.1 else r.1, r.2)

/-- The `subset_containing` operation.  The source computes
`self.set.len() / self.subset_count` after the lookup and the first
compression; `subset_count = 0` there is a Rust division-by-zero panic,
modelled as a `none` result. -/
def subset_containing (s : HashDisjointSet α) (elem : α) :
    Option (Except HashDisjointSetError (List α)) × HashDisjointSet α :=
  match lookupIdx s.map elem with
  | none => (some (Except.error HashDisjointSetError.ElementNotDefined), s)
  | some i =>
    let f := findInternal s.set.length s.set i
    if s.subset_count = 0 then (none, { s with set := f.2 })
    else
      let g := subsetFold f.1 s.map f.2
      (some (Except.ok g.1), { s with set := g.2 })

/-- Grouping pass of `all_subsets`: `groups` is keyed by root through the
auxiliary `subset_map` from root index to position in `subsets`. -/
def allSubsetsFold : List (α × Nat) → List Unit → List (Nat × Nat) →
    List (List α) → List Unit × List (List α)
  | [], set, _, subsets => (set, subsets)
  | (e, i) :: rest, set, subset_map, subsets =>
    let f := findInternal set.length set i
    match lookupIdx subset_map f.1 with
    | some pos => allSubsetsFold rest f.2 subset_map (subsets.set pos (e :: subsets.getD pos []))
    | none =>
      allSubsetsFold rest f.2 (subset_map ++ [(f.1, subsets.length)]) (subsets ++ [[e]])

/-- The `all_subsets` operation.  Its first statement is
`let avg_set_size = self.set.len() / self.subset_count;`, a Rust
division-by-zero panic whenever `subset_count = 0` (in particular on an
empty instance), modelled as a `none` result with the state untouched. -/
def all_subsets (s : HashDisjointSet α) :
    Option (List (List α)) × HashDisjointSet α :=
  if s.subset_count = 0 then (none, s)
  else
    let g := allSubsetsFold s.map s.set [] []
    (some g.2, { s with set := g.1 })

/-- The `insert` operation: on a vacant entry, register the element at index
`set.len()`, push a singleton self-parent node, bump the count and version;
on an occupied entry fail with `DuplicateElement` before any mutation. -/
def insert (s : HashDisjointSet α) (elem : α) :
    Except HashDisjointSetError PUnit.{1} × HashDisjointSet α :=
  match lookupIdx s.map elem with
  | some _ => (Except.error HashDisjointSetError.DuplicateElement, s)
  | none =>
    (Except.ok PUnit.unit,
      { ver := s.ver + 1,
        map := s.map ++ [(elem, s.set.length)],
        set := s.set ++ [⟨1, s.set.length⟩],
        subset_count := s.subset_count + 1,
        set_id := s.set_id })

/-- `Default::default()` threaded through the global `SET_ID` counter: the
new instance reads the counter as its identity and the counter is then
incremented. -/
def defaultWithCounter (counter : Nat) : HashDisjointSet α × Nat :=
  ({ ver := 0, map := [], set := [], subset_count := 0, set_id := counter }, counter + 1)

/-- Registration pass of `FromIterator::from_iter`: first occurrence wins,
later duplicates are no-ops (`map.entry(elem).or_insert_with(..)`). -/
def fromIterAux : List α → List (α × Nat) → List Unit → List (α × Nat) × List Unit
  | [], map, set => (map, set)
  | e :: rest, map, set =>
    match lookupIdx map e with
    | some _ => fromIterAux rest map set
    | none => fromIterAux rest (map ++ [(e, set.length)]) (set ++ [⟨1, set.length⟩])

/-- `FromIterator::from_iter` threaded through the global `SET_ID` counter. -/
def from_iter (l : List α) (counter : Nat) : HashDisjointSet α × Nat :=
  let ms := fromIterAux l [] []
  ({ ver := 0, map := ms.1, set := ms.2, subset_count := ms.1.length, set_id := counter },
    counter + 1)

/-- A node is a root iff it is its own parent. -/
def isRoot (set : List Unit) (i : Nat) : Prop := parentAt set i = i

instance (set : List Unit) (i : Nat) : Decidable (isRoot set i) :=
  inferInstanceAs (Decidable (_ = _))

/-- Pure `k`-fold parent iteration (no mutation). -/
def pIter (set : List Unit) : Nat → Nat → Nat
  | 0, i => i
  | k + 1, i => pIter set k (parentAt set i)

/-- Pure root lookup with fuel (no mutation). -/
def findRootAux : Nat → List Unit → Nat → Nat
  | 0, _, i => i
  | fuel + 1, set, i => if parentAt set i = i then i else findRootAux fuel set (parentAt set i)

/-- The root an index resolves to; on well-formed states a fuel of
`set.length` reaches the root. -/
def rootD (set : List Unit) (i : Nat) : Nat := findRootAux set.length set i

/-- Index `i` reaches root `r` by following parent pointers. -/
def ReachesRoot (set : List Unit) (i r : Nat) : Prop :=
  ∃ k, pIter set k i = r ∧ isRoot set r

/-- Well-formedness invariant of a `HashDisjointSet` state: registry keys are
distinct, registry values enumerate the forest indices, parent pointers stay
in bounds, every node reaches a root, every root's size field counts the
elements resolving to it, and `subset_count` counts the roots. -/
structure WF (s : HashDisjointSet α) : Prop where
  keys_nodup : (s.map.map Prod.fst).Nodup
  idx_range : s.map.map Prod.snd = List.range s.set.length
  bounded : ∀ i < s.set.length, parentAt s.set i < s.set.length
  rooted : ∀ i < s.set.length, ∃ k, isRoot s.set (pIter s.set k i)
  size_inv : ∀ r < s.set.length, isRoot s.set r →
    sizeAt s.set r = ((Finset.range s.set.length).filter (fun i => rootD s.set i = r)).card
  count_inv : s.subset_count =
    ((Finset.range s.set.length).filter (fun r => isRoot s.set r)).card

/-- Bundled well-formedness of a bare forest. -/
def ForestWF (set : List Unit) : Prop :=
  (∀ i < set.length, parentAt set i < set.length) ∧
  (∀ i < set.length, ∃ k, isRoot set (pIter set k i))

/-- Equivalence of forests as partitions: same length, same size fields, same
roots, same resolution.  This is exactly the effect of path compression. -/
def ForestEquiv (set newset : List Unit) : Prop :=
  newset.length = set.length ∧
  (∀ v, sizeAt newset v = sizeAt set v) ∧
  ForestWF newset ∧
  (∀ j, isRoot newset j ↔ isRoot set j) ∧
  (∀ j, j < set.length → rootD newset j = rootD set j)

/-! The transition system: a state steps by any API call (with any
arguments), and a reachable state is one produced from `default()` or
`from_iter(..)` by a sequence of calls. -/

inductive Step : HashDisjointSet α → HashDisjointSet α → Prop
  | insertStep (s : HashDisjointSet α) (e : α) : Step s (insert s e).2
  | unionStep (s : HashDisjointSet α) (a b : α) : Step s (union s a b).2
  | findStep (s : HashDisjointSet α) (e : α) : Step s (find s e).2
  | sameSubsetStep (s : HashDisjointSet α) (a b : α) : Step s (same_subset s a b).2
  | subsetSizeStep (s : HashDisjointSet α) (e : α) : Step s (subset_size s e).2
  | subsetContainingStep (s : HashDisjointSet α) (e : α) : Step s (subset_containing s e).2
  | allSubsetsStep (s : HashDisjointSet α) : Step s (all_subsets s).2

inductive ReachableFrom : HashDisjointSet α → HashDisjointSet α → Prop
  | refl (s : HashDisjointSet α) : ReachableFrom s s
  | tail (s1 s2 s3 : HashDisjointSet α) :
      ReachableFrom s1 s2 → Step s2 s3 → ReachableFrom s1 s3

def Init (s : HashDisjointSet α) : Prop :=
  (∃ c, s = (defaultWithCounter c).1) ∨ (∃ l c, s = (from_iter l c).1)

def Reachable (s : HashDisjointSet α) : Prop :=
  ∃ s0, Init s0 ∧ ReachableFrom s0 s

/-- An instance whose identity was minted at counter value `c`: some state
reachable from a construction that read `c` from the global counter. -/
def InstanceOf (c : Nat) (s : HashDisjointSet α) : Prop :=
  ∃ s0, (s0 = (defaultWithCounter c).1 ∨ ∃ l, s0 = (from_iter l c).1) ∧ ReachableFrom s0 s

/-- The bytes of the string used by the crate's tests and doc examples. -/
def thisIsATest : List Nat :=
  [84, 104, 105, 115, 32, 105, 115, 32, 97, 32, 116, 101, 115, 116, 46]

/-! Basic lemmas about forest reads and writes. -/

theorem length_setParent (set : List Unit) (i p : Nat) :
    (setParent set i p).length = set.length := by
  simp [setParent]

theorem length_setSize (set : List Unit) (i sz : Nat) :
    (setSize set i sz).length = set.length := by
  simp [setSize]

theorem getD_set_eq (set : List Unit) (i : Nat) (u d : Unit) (h : i < set.length) :
    (set.set i u).getD i d = u := by
  rw [List.getD_eq_getElem?_getD, List.getElem?_set]
  simp [h]

theorem getD_set_ne (set : List Unit) (i j : Nat) (u d : Unit) (h : i ≠ j) :
    (set.set i u).getD j d = set.getD j d := by
  rw [List.getD_eq_getElem?_getD, List.getElem?_set, if_neg h, ← List.getD_eq_getElem?_getD]

theorem parentAt_setParent (set : List Unit) (i p j : Nat) :
    parentAt (setParent set i p) j =
      if i = j ∧ i < set.length then p else parentAt set j := by
  by_cases hij : i = j
  · subst hij
    by_cases hlen : i < set.length
    · simp only [hlen, and_true, parentAt, setParent, getD_set_eq _ _ _ _ hlen]
      simp
    · simp only [hlen, and_false, if_false, parentAt, setParent]
      rw [List.set_eq_of_length_le (by omega)]
  · simp only [hij, false_and, if_false, parentAt, setParent, getD_set_ne _ _ _ _ _ hij]

theorem sizeAt_setParent (set : List Unit) (i p j : Nat) :
    sizeAt (setParent set i p) j = sizeAt set j := by
  by_cases hij : i = j
  · subst hij
    by_cases hlen : i < set.length
    · simp only [sizeAt, setParent, getD_set_eq _ _ _ _ hlen]
    · simp only [sizeAt, setParent]
      rw [List.set_eq_of_length_le (by omega)]
  · simp only [sizeAt, setParent, getD_set_ne _ _ _ _ _ hij]

theorem parentAt_setSize (set : List Unit) (i sz j : Nat) :
    parentAt (setSize set i sz) j = parentAt set j := by
  by_cases hij : i = j
  · subst hij
    by_cases hlen : i < set.length
    · simp only [parentAt, setSize, getD_set_eq _ _ _ _ hlen]
    · simp only [parentAt, setSize]
      rw [List.set_eq_of_length_le (by omega)]
  · simp only [parentAt, setSize, getD_set_ne _ _ _ _ _ hij]

theorem sizeAt_setSize (set : List Unit) (i sz j : Nat) :
    sizeAt (setSize set i sz) j =
      if i = j ∧ i < set.length then sz else sizeAt set j := by
  by_cases hij : i = j
  · subst hij
    by_cases hlen : i < set.length
    · simp only [hlen, and_true, sizeAt, setSize, getD_set_eq _ _ _ _ hlen]
      simp
    · simp only [hlen, and_false, if_false, sizeAt, setSize]
      rw [List.set_eq_of_length_le (by omega)]
  · simp only [hij, false_and, if_false, sizeAt, setSize, getD_set_ne _ _ _ _ _ hij]

theorem parentAt_append_left (set ext : List Unit) (j : Nat) (h : j < set.length) :
    parentAt (set ++ ext) j = parentAt set j := by
  simp only [parentAt, List.getD_eq_getElem?_getD, List.getElem?_append, h, if_pos]

theorem sizeAt_append_left (set ext : List Unit) (j : Nat) (h : j < set.length) :
    sizeAt (set ++ ext) j = sizeAt set j := by
  simp only [sizeAt, List.getD_eq_getElem?_getD, List.getElem?_append, h, if_pos]

theorem parentAt_append_self (set : List Unit) (u : Unit) :
    parentAt (set ++ [u]) set.length = u.parent := by
  simp [parentAt, List.getD_eq_getElem?_getD]

theorem sizeAt_append_self (set : List Unit) (u : Unit) :
    sizeAt (set ++ [u]) set.length = u.size := by
  simp [sizeAt, List.getD_eq_getElem?_getD]

/-! Lemmas about pure parent iteration. -/

theorem pIter_add (set : List Unit) (k1 k2 i : Nat) :
    pIter set (k1 + k2) i = pIter set k1 (pIter set k2 i) := by
  induction k2 generalizing i with
  | zero => rfl
  | succ k2 ih =>
    have : k1 + (k2 + 1) = (k1 + k2) + 1 := by omega
    rw [this]
    show pIter set (k1 + k2) (parentAt set i) = _
    rw [ih]
    rfl

theorem pIter_succ_out (set : List Unit) (k i : Nat) :
    pIter set (k + 1) i = parentAt set (pIter set k i) := by
  have := pIter_add set 1 k i
  rw [Nat.add_comm 1 k] at this
  rw [this]
  rfl

theorem pIter_root (set : List Unit) (r : Nat) (h : isRoot set r) (k : Nat) :
    pIter set k r = r := by
  induction k with
  | zero => rfl
  | succ k ih =>
    show pIter set k (parentAt set r) = r
    rw [h, ih]

theorem pIter_lt (set : List Unit)
    (hb : ∀ j < set.length, parentAt set j < set.length)
    (i : Nat) (hi : i < set.length) (k : Nat) : pIter set k i < set.length := by
  induction k generalizing i with
  | zero => exact hi
  | succ k ih => exact ih (parentAt set i) (hb i hi)

theorem pIter_absorb (set : List Unit) (i r k m : Nat)
    (hk : pIter set k i = r) (hr : isRoot set r) (hm : k ≤ m) :
    pIter set m i = r := by
  have : m = (m - k) + k := by omega
  rw [this, pIter_add, hk, pIter_root set r hr]

theorem reachesRoot_unique (set : List Unit) (i r1 r2 : Nat)
    (h1 : ReachesRoot set i r1) (h2 : ReachesRoot set i r2) : r1 = r2 := by
  obtain ⟨k1, hk1, hr1⟩ := h1
  obtain ⟨k2, hk2, hr2⟩ := h2
  rcases Nat.le_total k1 k2 with h | h
  · rw [← pIter_absorb set i r1 k1 k2 hk1 hr1 h, hk2]
  · rw [← pIter_absorb set i r2 k2 k1 hk2 hr2 h, hk1]

theorem findRootAux_reaches (fuel : Nat) :
    ∀ (set : List Unit) (i k : Nat), k ≤ fuel → isRoot set (pIter set k i) →
    ReachesRoot set i (findRootAux fuel set i) := by
  induction fuel with
  | zero =>
    intro set i k hk hroot
    have : k = 0 := by omega
    subst this
    exact ⟨0, rfl, hroot⟩
  | succ fuel ih =>
    intro set i k hk hroot
    by_cases h : parentAt set i = i
    · simp only [findRootAux, h, if_pos]
      exact ⟨0, rfl, h⟩
    · match k with
      | 0 => exact absurd hroot h
      | k' + 1 =>
        simp only [findRootAux, h, if_neg, if_false]
        obtain ⟨k2, hk2, hr2⟩ := ih set (parentAt set i) k' (by omega) hroot
        exact ⟨k2 + 1, hk2, hr2⟩

theorem exists_root_lt (set : List Unit)
    (hb : ∀ j < set.length, parentAt set j < set.length)
    (i : Nat) (hi : i < set.length) (h : ∃ k, isRoot set (pIter set k i)) :
    ∃ k < set.length, isRoot set (pIter set k i) := by
  by_contra hcon
  push_neg at hcon
  have hKspec := Nat.find_spec h
  set K := Nat.find h with hKdef
  have hKge : set.length ≤ K := by
    by_contra hlt
    exact hcon K (by omega) hKspec
  have hmaps : ∀ k ∈ Finset.range (K + 1), pIter set k i ∈ Finset.range set.length := by
    intro k _
    exact Finset.mem_range.mpr (pIter_lt set hb i hi k)
  have hcard : (Finset.range set.length).card < (Finset.range (K + 1)).card := by
    simp only [Finset.card_range]
    omega
  obtain ⟨a, ha, b, hbmem, hab, heq⟩ :=
    Finset.exists_ne_map_eq_of_card_lt_of_maps_to hcard hmaps
  rw [Finset.mem_range] at ha hbmem
  rcases Nat.lt_or_ge a b with hlt | hge
  · -- a < b, chain repeats with period b - a from position a
    have hperiod : ∀ m, a ≤ m → pIter set (m + (b - a)) i = pIter set m i := by
      intro m hm
      have h1 : m + (b - a) = (m - a) + b := by omega
      have h2 : m = (m - a) + a := by omega
      rw [h1, pIter_add, ← heq, ← pIter_add, ← h2]
    have hKb : b ≤ K := by omega
    have hKm : a ≤ K - (b - a) := by omega
    have := hperiod (K - (b - a)) hKm
    have hrew : K - (b - a) + (b - a) = K := by omega
    rw [hrew] at this
    have hmin := Nat.find_min h (m := K - (b - a)) (by omega)
    exact hmin (by rw [← this]; exact hKspec)
  · -- b < a, symmetric
    have hba : b < a := by omega
    have hperiod : ∀ m, b ≤ m → pIter set (m + (a - b)) i = pIter set m i := by
      intro m hm
      have h1 : m + (a - b) = (m - b) + a := by omega
      have h2 : m = (m - b) + b := by omega
      rw [h1, pIter_add, heq, ← pIter_add, ← h2]
    have hKm : b ≤ K - (a - b) := by omega
    have := hperiod (K - (a - b)) hKm
    have hrew : K - (a - b) + (a - b) = K := by omega
    rw [hrew] at this
    have hmin := Nat.find_min h (m := K - (a - b)) (by omega)
    exact hmin (by rw [← this]; exact hKspec)

theorem rootD_reaches (set : List Unit) (hwf : ForestWF set)
    (i : Nat) (hi : i < set.length) : ReachesRoot set i (rootD set i) := by
  obtain ⟨k, hk, hroot⟩ := exists_root_lt set hwf.1 i hi (hwf.2 i hi)
  exact findRootAux_reaches set.length set i k (by omega) hroot

theorem rootD_of_reaches (set : List Unit) (hwf : ForestWF set)
    (i r : Nat) (hi : i < set.length) (h : ReachesRoot set i r) :
    rootD set i = r :=
  reachesRoot_unique set i (rootD set i) r (rootD_reaches set hwf i hi) h

theorem rootD_isRoot (set : List Unit) (hwf : ForestWF set)
    (i : Nat) (hi : i < set.length) : isRoot set (rootD set i) :=
  (rootD_reaches set hwf i hi).choose_spec.2

theorem rootD_lt (set : List Unit) (hwf : ForestWF set)
    (i : Nat) (hi : i < set.length) : rootD set i < set.length := by
  obtain ⟨k, hk, _⟩ := rootD_reaches set hwf i hi
  rw [← hk]
  exact pIter_lt set hwf.1 i hi k

theorem rootD_eq_self_iff (set : List Unit) (hwf : ForestWF set)
    (i : Nat) (hi : i < set.length) : rootD set i = i ↔ isRoot set i := by
  constructor
  · intro h
    have := rootD_isRoot set hwf i hi
    rwa [h] at this
  · intro h
    exact rootD_of_reaches set hwf i i hi ⟨0, rfl, h⟩

theorem rootD_root (set : List Unit) (hwf : ForestWF set)
    (r : Nat) (hr : r < set.length) (h : isRoot set r) : rootD set r = r :=
  (rootD_eq_self_iff set hwf r hr).mpr h

/-! The chain from the parent of a non-root node never revisits the node,
as long as the chain reaches a root. -/

theorem chain_avoids (set : List Unit) (i k' : Nat) (hni : ¬ isRoot set i)
    (hr : isRoot set (pIter set k' (parentAt set i))) :
    ∀ j ≤ k', pIter set j (parentAt set i) ≠ i := by
  intro j hj heq
  have hcycle : pIter set (j + 1) i = i := heq
  have hperiod : ∀ a, pIter set (a * (j + 1)) i = i := by
    intro a
    induction a with
    | zero => rw [Nat.zero_mul]; exact rfl
    | succ a ih =>
      have : (a + 1) * (j + 1) = a * (j + 1) + (j + 1) := by ring
      rw [this, Nat.add_comm, pIter_add, ih, hcycle]
  have habsorb : pIter set ((k' + 1) * (j + 1)) i = pIter set (k' + 1) i := by
    apply pIter_absorb set i _ (k' + 1) _ rfl hr
    calc k' + 1 = (k' + 1) * 1 := by ring
    _ ≤ (k' + 1) * (j + 1) := Nat.mul_le_mul_left _ (by omega)
  rw [hperiod (k' + 1)] at habsorb
  apply hni
  show isRoot set i
  have : isRoot set (pIter set (k' + 1) i) := hr
  rwa [← habsorb] at this

theorem pIter_setParent_transfer (set : List Unit) (e p2 x : Nat) (j : Nat)
    (h : ∀ t < j, pIter set t x ≠ e) :
    pIter (setParent set e p2) j x = pIter set j x := by
  induction j with
  | zero => rfl
  | succ j ih =>
    rw [pIter_succ_out, pIter_succ_out, ih (fun t ht => h t (by omega)),
      parentAt_setParent]
    have : ¬ (e = pIter set j x ∧ e < set.length) := by
      intro ⟨he, _⟩
      exact h j (by omega) he.symm
    rw [if_neg this]

theorem isRoot_setParent_iff (set : List Unit) (e p2 x : Nat) (hx : x ≠ e) :
    isRoot (setParent set e p2) x ↔ isRoot set x := by
  unfold isRoot
  rw [parentAt_setParent, if_neg (fun h => hx h.1.symm)]

theorem findInternal_of_root (fuel : Nat) (set : List Unit) (i : Nat)
    (h : parentAt set i = i) : findInternal fuel set i = (i, set) := by
  cases fuel with
  | zero => rfl
  | succ fuel => simp [findInternal, h]

/-- Full characterization of `find_internal` on a forest where the start node
reaches a root within `k ≤ fuel` steps: the loop stops at the first root `K`
steps along the original parent chain and returns it, the forest keeps its
length and all its sizes, every visited non-root node's parent is rewritten
to its original grandparent, and every other node is untouched. -/
theorem findInternal_spec (k : Nat) :
    ∀ (fuel : Nat) (set : List Unit) (i : Nat),
    (∀ j < set.length, parentAt set j < set.length) → i < set.length →
    isRoot set (pIter set k i) → k ≤ fuel →
    ∃ K ≤ k,
      (∀ t < K, ¬ isRoot set (pIter set t i)) ∧
      isRoot set (pIter set K i) ∧
      (findInternal fuel set i).1 = pIter set K i ∧
      (findInternal fuel set i).2.length = set.length ∧
      (∀ v, sizeAt (findInternal fuel set i).2 v = sizeAt set v) ∧
      (∀ v, (∃ t < K, pIter set t i = v) →
        parentAt (findInternal fuel set i).2 v = parentAt set (parentAt set v)) ∧
      (∀ v, (∀ t < K, pIter set t i ≠ v) →
        parentAt (findInternal fuel set i).2 v = parentAt set v) := by
  induction k with
  | zero =>
    intro fuel set i hb hi hroot _
    refine ⟨0, le_rfl, fun t ht => absurd ht (Nat.not_lt_zero t), hroot, ?_, ?_, ?_, ?_, ?_⟩
    · rw [findInternal_of_root fuel set i hroot]
      exact rfl
    · rw [findInternal_of_root fuel set i hroot]
    · intro v
      rw [findInternal_of_root fuel set i hroot]
    · rintro v ⟨t, ht, _⟩
      exact absurd ht (Nat.not_lt_zero t)
    · intro v _
      rw [findInternal_of_root fuel set i hroot]
  | succ k' ih =>
    intro fuel set i hb hi hroot hfuel
    by_cases hri : parentAt set i = i
    · refine ⟨0, Nat.zero_le _, fun t ht => absurd ht (Nat.not_lt_zero t), hri, ?_, ?_, ?_, ?_, ?_⟩
      · rw [findInternal_of_root fuel set i hri]
        exact rfl
      · rw [findInternal_of_root fuel set i hri]
      · intro v
        rw [findInternal_of_root fuel set i hri]
      · rintro v ⟨t, ht, _⟩
        exact absurd ht (Nat.not_lt_zero t)
      · intro v _
        rw [findInternal_of_root fuel set i hri]
    · cases fuel with
      | zero => omega
      | succ fuel' =>
        have hunfold : findInternal (fuel' + 1) set i =
            findInternal fuel' (setParent set i (parentAt set (parentAt set i)))
              (parentAt set i) := by
          simp only [findInternal]
          rw [if_neg hri]
        have hplt : parentAt set i < set.length := hb i hi
        have hrootp : isRoot set (pIter set k' (parentAt set i)) := hroot
        have havoid : ∀ j ≤ k', pIter set j (parentAt set i) ≠ i :=
          chain_avoids set i k' hri hrootp
        have htrans : ∀ j, j ≤ k' →
            pIter (setParent set i (parentAt set (parentAt set i))) j (parentAt set i) =
              pIter set j (parentAt set i) := by
          intro j hj
          exact pIter_setParent_transfer set i _ _ j (fun t ht => havoid t (by omega))
        have hlen' : (setParent set i (parentAt set (parentAt set i))).length = set.length :=
          length_setParent set i _
        have hb' : ∀ j < (setParent set i (parentAt set (parentAt set i))).length,
            parentAt (setParent set i (parentAt set (parentAt set i))) j <
              (setParent set i (parentAt set (parentAt set i))).length := by
          intro j hj
          rw [hlen'] at hj ⊢
          rw [parentAt_setParent]
          by_cases hcase : i = j ∧ i < set.length
          · rw [if_pos hcase]
            exact hb _ hplt
          · rw [if_neg hcase]
            exact hb j hj
        have hroot' : isRoot (setParent set i (parentAt set (parentAt set i)))
            (pIter (setParent set i (parentAt set (parentAt set i))) k' (parentAt set i)) := by
          rw [htrans k' le_rfl]
          rw [isRoot_setParent_iff set i _ _ (havoid k' le_rfl)]
          exact hrootp
        have hplt' : parentAt set i < (setParent set i (parentAt set (parentAt set i))).length := by
          rw [hlen']
          exact hplt
        obtain ⟨K', hK'le, hKnr, hKroot, hKfst, hKlen, hKsize, hKvis, hKun⟩ :=
          ih fuel' (setParent set i (parentAt set (parentAt set i))) (parentAt set i)
            hb' hplt' hroot' (by omega)
        have hT1 : ∀ t, t ≤ k' →
            pIter (setParent set i (parentAt set (parentAt set i))) t (parentAt set i) =
              pIter set (t + 1) i := by
          intro t ht
          rw [htrans t ht]
          rfl
        rw [hunfold]
        refine ⟨K' + 1, by omega, ?_, ?_, ?_, ?_, ?_, ?_, ?_⟩
        · -- no root strictly before position K' + 1
          intro t ht
          cases t with
          | zero => exact hri
          | succ t' =>
            have ht' : t' < K' := by omega
            have hne : pIter set (t' + 1) i ≠ i := havoid t' (by omega)
            intro hcontra
            apply hKnr t' ht'
            rw [hT1 t' (by omega)]
            rw [isRoot_setParent_iff set i _ _ hne]
            exact hcontra
        · -- position K' + 1 is a root
          have hx := hKroot
          rw [hT1 K' hK'le] at hx
          have hne : pIter set (K' + 1) i ≠ i := havoid K' hK'le
          rw [isRoot_setParent_iff set i _ _ hne] at hx
          exact hx
        · rw [hKfst, hT1 K' hK'le]
        · rw [hKlen, hlen']
        · intro v
          rw [hKsize v, sizeAt_setParent]
        · -- visited nodes point at their original grandparent
          rintro v ⟨t, ht, hpt⟩
          cases t with
          | zero =>
            -- v = i, rewritten in the first iteration and untouched afterwards
            have hv : v = i := hpt.symm
            rw [hv]
            have hnotvis : ∀ t < K',
                pIter (setParent set i (parentAt set (parentAt set i))) t (parentAt set i) ≠ i := by
              intro t ht2
              rw [htrans t (by omega)]
              exact havoid t (by omega)
            rw [hKun i hnotvis, parentAt_setParent, if_pos ⟨rfl, hi⟩]
          | succ t' =>
            have hvne : v ≠ i := by
              rw [← hpt]
              exact havoid t' (by omega)
            have hvis' : ∃ t < K',
                pIter (setParent set i (parentAt set (parentAt set i))) t (parentAt set i) = v := by
              refine ⟨t', by omega, ?_⟩
              rw [hT1 t' (by omega)]
              exact hpt
            rw [hKvis v hvis']
            have hpv : parentAt (setParent set i (parentAt set (parentAt set i))) v =
                parentAt set v := by
              rw [parentAt_setParent, if_neg (fun h => hvne h.1.symm)]
            rw [hpv]
            have hw : parentAt set v = pIter set (t' + 1) (parentAt set i) := by
              rw [← hpt, ← pIter_succ_out]
              rfl
            have hwne : parentAt set v ≠ i := by
              rw [hw]
              exact havoid (t' + 1) (by omega)
            rw [parentAt_setParent, if_neg (fun h => hwne h.1.symm)]
        · -- unvisited nodes are untouched
          intro v hun
          have hvne : v ≠ i := fun h => hun 0 (by omega) h.symm
          have hun' : ∀ t < K',
              pIter (setParent set i (parentAt set (parentAt set i))) t (parentAt set i) ≠ v := by
            intro t ht2
            rw [hT1 t (by omega)]
            exact hun (t + 1) (by omega)
          rw [hKun v hun', parentAt_setParent, if_neg (fun h => hvne h.1.symm)]

/-- The loop result does not depend on the fuel once the fuel covers the
distance to the root: `find_internal` terminates. -/
theorem findInternal_fuel_irrel (k : Nat) :
    ∀ (fuel1 fuel2 : Nat) (set : List Unit) (i : Nat),
    isRoot set (pIter set k i) → k ≤ fuel1 → k ≤ fuel2 →
    findInternal fuel1 set i = findInternal fuel2 set i := by
  induction k with
  | zero =>
    intro fuel1 fuel2 set i hroot _ _
    rw [findInternal_of_root fuel1 set i hroot, findInternal_of_root fuel2 set i hroot]
  | succ k' ih =>
    intro fuel1 fuel2 set i hroot h1 h2
    by_cases hri : parentAt set i = i
    · rw [findInternal_of_root fuel1 set i hri, findInternal_of_root fuel2 set i hri]
    · cases fuel1 with
      | zero => omega
      | succ f1 =>
        cases fuel2 with
        | zero => omega
        | succ f2 =>
          have e1 : findInternal (f1 + 1) set i =
              findInternal f1 (setParent set i (parentAt set (parentAt set i)))
                (parentAt set i) := by
            simp only [findInternal]
            rw [if_neg hri]
          have e2 : findInternal (f2 + 1) set i =
              findInternal f2 (setParent set i (parentAt set (parentAt set i)))
                (parentAt set i) := by
            simp only [findInternal]
            rw [if_neg hri]
          rw [e1, e2]
          have havoid : ∀ j ≤ k', pIter set j (parentAt set i) ≠ i :=
            chain_avoids set i k' hri hroot
          have hroot' : isRoot (setParent set i (parentAt set (parentAt set i)))
              (pIter (setParent set i (parentAt set (parentAt set i))) k' (parentAt set i)) := by
            rw [pIter_setParent_transfer set i _ _ k' (fun t ht => havoid t (by omega))]
            rw [isRoot_setParent_iff set i _ _ (havoid k' le_rfl)]
            exact hroot
          exact ih f1 f2 _ _ hroot' (by omega) (by omega)

/-- A node on a cycle that also reaches a root must be that root itself. -/
theorem eq_root_of_cycle (set : List Unit) (j d r : Nat) (hd : 0 < d)
    (hcyc : pIter set d j = j) (hreach : ReachesRoot set j r) : j = r := by
  obtain ⟨m, hm, hroot⟩ := hreach
  have hperiod : ∀ a, pIter set (a * d) j = j := by
    intro a
    induction a with
    | zero => rw [Nat.zero_mul]; exact rfl
    | succ a ih =>
      have : (a + 1) * d = a * d + d := by ring
      rw [this, Nat.add_comm, pIter_add, ih, hcyc]
  have hN : pIter set ((m + 1) * d) j = r :=
    pIter_absorb set j r m _ hm hroot (by nlinarith)
  rw [hperiod (m + 1)] at hN
  rw [hN]

theorem reachesRoot_step (set : List Unit) (j r : Nat)
    (h : ReachesRoot set (parentAt set j) r) : ReachesRoot set j r := by
  obtain ⟨k, hk, hr⟩ := h
  exact ⟨k + 1, hk, hr⟩

/-- Packaged consequences of `find_internal` on a well-formed forest: the
returned index is the canonical root, the forest keeps its length and sizes,
well-formedness is preserved, rootness of every node is unchanged, and every
node resolves to the same root as before (the partition is preserved). -/
theorem findInternal_wf (set : List Unit) (hwf : ForestWF set) (i : Nat)
    (hi : i < set.length) (fuel : Nat) (hfuel : set.length ≤ fuel) :
    (findInternal fuel set i).1 = rootD set i ∧
    (findInternal fuel set i).2.length = set.length ∧
    (∀ v, sizeAt (findInternal fuel set i).2 v = sizeAt set v) ∧
    ForestWF (findInternal fuel set i).2 ∧
    (∀ j, isRoot (findInternal fuel set i).2 j ↔ isRoot set j) ∧
    (∀ j, j < set.length → rootD (findInternal fuel set i).2 j = rootD set j) := by
  obtain ⟨k, hklt, hkroot⟩ := exists_root_lt set hwf.1 i hi (hwf.2 i hi)
  obtain ⟨K, hKle, hKnr, hKroot, hKfst, hKlen, hKsize, hKvis, hKun⟩ :=
    findInternal_spec k fuel set i hwf.1 hi hkroot (by omega)
  have hVisNonRoot : ∀ v, (∃ t < K, pIter set t i = v) → ¬ isRoot set v := by
    rintro v ⟨t, ht, hpt⟩
    rw [← hpt]
    exact hKnr t ht
  have hVisReach : ∀ v, (∃ t < K, pIter set t i = v) → ReachesRoot set v (pIter set K i) := by
    rintro v ⟨t, ht, hpt⟩
    refine ⟨K - t, ?_, hKroot⟩
    rw [← hpt, ← pIter_add]
    congr 1
    omega
  have hpar2 : ∀ v, (∃ t < K, pIter set t i = v) →
      parentAt (findInternal fuel set i).2 v = pIter set 2 v := by
    intro v hv
    rw [hKvis v hv]
    exact rfl
  have hb2 : ∀ j < (findInternal fuel set i).2.length,
      parentAt (findInternal fuel set i).2 j < (findInternal fuel set i).2.length := by
    intro j hj
    rw [hKlen] at hj ⊢
    by_cases hv : ∃ t < K, pIter set t i = j
    · rw [hKvis j hv]
      exact hwf.1 _ (hwf.1 j hj)
    · push_neg at hv
      rw [hKun j hv]
      exact hwf.1 j hj
  have hpres : ∀ kk j r, pIter set kk j = r → isRoot set r →
      ReachesRoot (findInternal fuel set i).2 j r := by
    intro kk
    induction kk using Nat.strong_induction_on with
    | _ kk ihk =>
      intro j r hreach hroot
      by_cases hjr : isRoot set j
      · have : j = r := by
          rw [← hreach, pIter_root set j hjr]
        subst this
        have hnv : ∀ t < K, pIter set t i ≠ j := by
          intro t ht heq
          exact hVisNonRoot j ⟨t, ht, heq⟩ hjr
        refine ⟨0, rfl, ?_⟩
        show parentAt _ j = j
        rw [hKun j hnv]
        exact hjr
      · cases kk with
        | zero =>
          have hjr2 : j = r := hreach
          rw [hjr2] at hjr
          exact absurd hroot hjr
        | succ kk' =>
          by_cases hv : ∃ t < K, pIter set t i = j
          · -- visited node: its new parent is its old grandparent
            apply reachesRoot_step
            rw [hpar2 j hv]
            cases kk' with
            | zero =>
              -- parent of j is already the root r, so the grandparent is r too
              have hpj : parentAt set j = r := hreach
              have h2 : pIter set 2 j = r := by
                show pIter set 1 (parentAt set j) = r
                rw [hpj]
                show parentAt set r = r
                exact hroot
              exact ihk 0 (by omega) _ r h2 hroot
            | succ kk'' =>
              have h2 : pIter set (kk'' + 2) j = r := hreach
              have h3 : pIter set kk'' (pIter set 2 j) = r := by
                rw [← pIter_add]
                exact h2
              exact ihk kk'' (by omega) _ r h3 hroot
          · -- unvisited node keeps its parent
            push_neg at hv
            apply reachesRoot_step
            rw [hKun j hv]
            exact ihk kk' (by omega) _ r hreach hroot
  have hrooted2 : ∀ j < (findInternal fuel set i).2.length,
      ∃ kk, isRoot (findInternal fuel set i).2
        (pIter (findInternal fuel set i).2 kk j) := by
    intro j hj
    rw [hKlen] at hj
    obtain ⟨kk, hkk, hroot⟩ := rootD_reaches set hwf j hj
    obtain ⟨m, hm, hr⟩ := hpres kk j _ hkk hroot
    exact ⟨m, by rw [hm]; exact hr⟩
  have hwf2 : ForestWF (findInternal fuel set i).2 := ⟨hb2, hrooted2⟩
  have hrootD2 : ∀ j, j < set.length →
      rootD (findInternal fuel set i).2 j = rootD set j := by
    intro j hj
    obtain ⟨kk, hkk, hroot⟩ := rootD_reaches set hwf j hj
    exact rootD_of_reaches _ hwf2 j _ (by rw [hKlen]; exact hj)
      (hpres kk j _ hkk hroot)
  have hrootiff : ∀ j, isRoot (findInternal fuel set i).2 j ↔ isRoot set j := by
    intro j
    by_cases hv : ∃ t < K, pIter set t i = j
    · have hnr := hVisNonRoot j hv
      constructor
      · intro hroot2
        exfalso
        have hcyc : pIter set 2 j = j := by
          rw [← hpar2 j hv]
          exact hroot2
        have := eq_root_of_cycle set j 2 (pIter set K i) (by omega) hcyc (hVisReach j hv)
        apply hnr
        rw [this]
        exact hKroot
      · intro hroot2
        exact absurd hroot2 hnr
    · push_neg at hv
      unfold isRoot
      rw [hKun j hv]
  refine ⟨?_, hKlen, hKsize, hwf2, hrootiff, hrootD2⟩
  rw [hKfst]
  symm
  exact rootD_of_reaches set hwf i _ hi ⟨K, rfl, hKroot⟩

/-! Congruence: forests with pointwise-equal parents resolve identically. -/

theorem pIter_parent_congr (set1 set2 : List Unit)
    (h : ∀ j, parentAt set1 j = parentAt set2 j) (k i : Nat) :
    pIter set1 k i = pIter set2 k i := by
  induction k generalizing i with
  | zero => rfl
  | succ k ih =>
    show pIter set1 k (parentAt set1 i) = pIter set2 k (parentAt set2 i)
    rw [h i, ih]

theorem findRootAux_parent_congr (set1 set2 : List Unit)
    (h : ∀ j, parentAt set1 j = parentAt set2 j) (fuel i : Nat) :
    findRootAux fuel set1 i = findRootAux fuel set2 i := by
  induction fuel generalizing i with
  | zero => rfl
  | succ fuel ih =>
    show (if parentAt set1 i = i then i else findRootAux fuel set1 (parentAt set1 i)) =
      (if parentAt set2 i = i then i else findRootAux fuel set2 (parentAt set2 i))
    rw [h i, ih]

theorem rootD_setSize (set : List Unit) (i sz j : Nat) :
    rootD (setSize set i sz) j = rootD set j := by
  unfold rootD
  rw [length_setSize]
  exact findRootAux_parent_congr _ _ (fun v => parentAt_setSize set i sz v) _ j

theorem isRoot_setSize (set : List Unit) (i sz j : Nat) :
    isRoot (setSize set i sz) j ↔ isRoot set j := by
  unfold isRoot
  rw [parentAt_setSize]

theorem forestWF_setSize (set : List Unit) (i sz : Nat) (hwf : ForestWF set) :
    ForestWF (setSize set i sz) := by
  constructor
  · intro j hj
    rw [length_setSize] at hj ⊢
    rw [parentAt_setSize]
    exact hwf.1 j hj
  · intro j hj
    rw [length_setSize] at hj
    obtain ⟨k, hk⟩ := hwf.2 j hj
    refine ⟨k, ?_⟩
    rw [pIter_parent_congr _ _ (fun v => parentAt_setSize set i sz v) k j]
    rw [isRoot_setSize]
    exact hk

/-! Linking one root under another (the mutating part of `union`). -/

theorem reachesRoot_link (set : List Unit) (ra rb : Nat)
    (hra : isRoot set ra) (hrb : isRoot set rb) (hne : ra ≠ rb)
    (hrb_lt : rb < set.length) :
    ∀ (kk j r : Nat), pIter set kk j = r → isRoot set r →
    ReachesRoot (setParent set rb ra) j (if r = rb then ra else r) := by
  have hpar_rb : parentAt (setParent set rb ra) rb = ra := by
    rw [parentAt_setParent, if_pos ⟨rfl, hrb_lt⟩]
  have hpar_other : ∀ x, x ≠ rb → parentAt (setParent set rb ra) x = parentAt set x := by
    intro x hx
    rw [parentAt_setParent, if_neg (fun h => hx h.1.symm)]
  have hroot_ra : isRoot (setParent set rb ra) ra := by
    show parentAt _ ra = ra
    rw [hpar_other ra hne]
    exact hra
  intro kk
  induction kk using Nat.strong_induction_on with
  | _ kk ihk =>
    intro j r hreach hroot
    by_cases hjrb : j = rb
    · have hr2 : r = rb := by
        rw [← hreach, hjrb, pIter_root set rb hrb]
      rw [if_pos hr2]
      refine ⟨1, ?_, hroot_ra⟩
      rw [hjrb]
      exact hpar_rb
    · by_cases hjr : isRoot set j
      · have : r = j := by
          rw [← hreach, pIter_root set j hjr]
        subst this
        rw [if_neg hjrb]
        refine ⟨0, rfl, ?_⟩
        show parentAt _ r = r
        rw [hpar_other r hjrb]
        exact hjr
      · cases kk with
        | zero =>
          have : j = r := hreach
          rw [this] at hjr
          exact absurd hroot hjr
        | succ kk' =>
          have hstep : pIter set kk' (parentAt set j) = r := hreach
          have := ihk kk' (by omega) (parentAt set j) r hstep hroot
          apply reachesRoot_step
          rw [hpar_other j hjrb]
          exact this

theorem link_wf (set : List Unit) (ra rb : Nat) (hwf : ForestWF set)
    (hra : isRoot set ra) (hrb : isRoot set rb) (hne : ra ≠ rb)
    (hra_lt : ra < set.length) (hrb_lt : rb < set.length) :
    ForestWF (setParent set rb ra) ∧
    (∀ j < set.length, rootD (setParent set rb ra) j =
      if rootD set j = rb then ra else rootD set j) ∧
    (∀ x, isRoot (setParent set rb ra) x ↔ (isRoot set x ∧ x ≠ rb)) := by
  have hlen : (setParent set rb ra).length = set.length := length_setParent set rb ra
  have hrootiff : ∀ x, isRoot (setParent set rb ra) x ↔ (isRoot set x ∧ x ≠ rb) := by
    intro x
    by_cases hx : x = rb
    · constructor
      · intro h
        exfalso
        apply hne
        rw [hx] at h
        have h2 : parentAt (setParent set rb ra) rb = ra := by
          rw [parentAt_setParent, if_pos ⟨rfl, hrb_lt⟩]
        rw [← h2]
        exact h
      · rintro ⟨_, h⟩
        exact absurd hx h
    · unfold isRoot
      rw [parentAt_setParent, if_neg (fun h => hx h.1.symm)]
      exact ⟨fun h => ⟨h, hx⟩, fun h => h.1⟩
  have hbounded : ∀ j < (setParent set rb ra).length,
      parentAt (setParent set rb ra) j < (setParent set rb ra).length := by
    intro j hj
    rw [hlen] at hj ⊢
    rw [parentAt_setParent]
    by_cases hcase : rb = j ∧ rb < set.length
    · rw [if_pos hcase]
      exact hra_lt
    · rw [if_neg hcase]
      exact hwf.1 j hj
  have hreach : ∀ j < set.length,
      ReachesRoot (setParent set rb ra) j
        (if rootD set j = rb then ra else rootD set j) := by
    intro j hj
    obtain ⟨kk, hkk, hroot⟩ := rootD_reaches set hwf j hj
    exact reachesRoot_link set ra rb hra hrb hne hrb_lt kk j _ hkk hroot
  have hrooted : ∀ j < (setParent set rb ra).length,
      ∃ k, isRoot (setParent set rb ra) (pIter (setParent set rb ra) k j) := by
    intro j hj
    rw [hlen] at hj
    obtain ⟨m, hm, hr⟩ := hreach j hj
    exact ⟨m, by rw [hm]; exact hr⟩
  refine ⟨⟨hbounded, hrooted⟩, ?_, hrootiff⟩
  intro j hj
  exact rootD_of_reaches _ ⟨hbounded, hrooted⟩ j _ (by rw [hlen]; exact hj) (hreach j hj)

/-! Registry lookup facts. -/

theorem lookupIdx_mem_snd (m : List (α × Nat)) (e : α) (i : Nat)
    (h : lookupIdx m e = some i) : i ∈ m.map Prod.snd := by
  induction m with
  | nil => exact absurd h (by simp [lookupIdx])
  | cons kv rest ih =>
    obtain ⟨k, v⟩ := kv
    by_cases hk : k = e
    · simp only [lookupIdx, if_pos hk] at h
      have hv : v = i := Option.some.inj h
      subst hv
      simp
    · simp only [lookupIdx, if_neg hk] at h
      simp [ih h]

theorem lookupIdx_lt (s : HashDisjointSet α) (hwf : WF s) (e : α) (i : Nat)
    (h : lookupIdx s.map e = some i) : i < s.set.length := by
  have := lookupIdx_mem_snd s.map e i h
  rw [hwf.idx_range] at this
  exact List.mem_range.mp this

/-- Replacing the forest of a well-formed state by an equivalent forest
(same length, same sizes, same roots, same resolution) keeps it well-formed. -/
theorem WF_replace (s : HashDisjointSet α) (hwf : WF s) (newset : List Unit)
    (hlen : newset.length = s.set.length)
    (hsize : ∀ v, sizeAt newset v = sizeAt s.set v)
    (hwf2 : ForestWF newset)
    (hrootiff : ∀ j, isRoot newset j ↔ isRoot s.set j)
    (hrootD : ∀ j, j < s.set.length → rootD newset j = rootD s.set j) :
    WF { s with set := newset } := by
  constructor
  · exact hwf.keys_nodup
  · show s.map.map Prod.snd = List.range newset.length
    rw [hlen]
    exact hwf.idx_range
  · exact hwf2.1
  · exact hwf2.2
  · intro r hr hroot
    show sizeAt newset r = _
    rw [hlen] at hr ⊢
    rw [hsize r]
    rw [hwf.size_inv r hr ((hrootiff r).mp hroot)]
    congr 1
    apply Finset.filter_congr
    intro i hi
    rw [hrootD i (Finset.mem_range.mp hi)]
  · show s.subset_count = ((Finset.range newset.length).filter (fun r => isRoot newset r)).card
    rw [hlen, hwf.count_inv]
    congr 1
    apply Finset.filter_congr
    intro r _
    rw [hrootiff r]

theorem forestEquiv_refl (set : List Unit) (hwf : ForestWF set) : ForestEquiv set set :=
  ⟨rfl, fun _ => rfl, hwf, fun _ => Iff.rfl, fun _ _ => rfl⟩

theorem forestEquiv_trans (s1 s2 s3 : List Unit)
    (h12 : ForestEquiv s1 s2) (h23 : ForestEquiv s2 s3) : ForestEquiv s1 s3 := by
  obtain ⟨hl12, hs12, hw2, hr12, hd12⟩ := h12
  obtain ⟨hl23, hs23, hw3, hr23, hd23⟩ := h23
  refine ⟨hl23.trans hl12, fun v => (hs23 v).trans (hs12 v), hw3,
    fun j => (hr23 j).trans (hr12 j), fun j hj => ?_⟩
  rw [hd23 j (by omega : j < s2.length), hd12 j hj]

theorem findInternal_equiv (set : List Unit) (hwf : ForestWF set) (i : Nat)
    (hi : i < set.length) (fuel : Nat) (hfuel : set.length ≤ fuel) :
    ForestEquiv set (findInternal fuel set i).2 ∧
    (findInternal fuel set i).1 = rootD set i := by
  obtain ⟨h1, h2, h3, h4, h5, h6⟩ := findInternal_wf set hwf i hi fuel hfuel
  exact ⟨⟨h2, h3, h4, h5, h6⟩, h1⟩

theorem WF_replace' (s : HashDisjointSet α) (hwf : WF s) (newset : List Unit)
    (he : ForestEquiv s.set newset) : WF { s with set := newset } :=
  WF_replace s hwf newset he.1 he.2.1 he.2.2.1 he.2.2.2.1 he.2.2.2.2

theorem subsetFold_equiv (root : Nat) (entries : List (α × Nat)) :
    ∀ (set : List Unit), ForestWF set →
    (∀ p ∈ entries, p.2 < set.length) →
    ForestEquiv set (subsetFold root entries set).2 := by
  induction entries with
  | nil =>
    intro set hwf _
    exact forestEquiv_refl set hwf
  | cons p rest ih =>
    intro set hwf hidx
    obtain ⟨e, i⟩ := p
    have hi : i < set.length := hidx (e, i) (by simp)
    have hstep := findInternal_equiv set hwf i hi set.length le_rfl
    have hrest := ih (findInternal set.length set i).2 hstep.1.2.2.1
      (by
        intro q hq
        rw [hstep.1.1]
        exact hidx q (by simp [hq]))
    show ForestEquiv set (subsetFold root rest (findInternal set.length set i).2).2
    exact forestEquiv_trans _ _ _ hstep.1 hrest

theorem allSubsetsFold_equiv (entries : List (α × Nat)) :
    ∀ (set : List Unit) (sm : List (Nat × Nat)) (acc : List (List α)),
    ForestWF set →
    (∀ p ∈ entries, p.2 < set.length) →
    ForestEquiv set (allSubsetsFold entries set sm acc).1 := by
  induction entries with
  | nil =>
    intro set _ _ hwf _
    exact forestEquiv_refl set hwf
  | cons p rest ih =>
    intro set sm acc hwf hidx
    obtain ⟨e, i⟩ := p
    have hi : i < set.length := hidx (e, i) (by simp)
    have hstep := findInternal_equiv set hwf i hi set.length le_rfl
    have hsub : ∀ q ∈ rest, q.2 < (findInternal set.length set i).2.length := by
      intro q hq
      rw [hstep.1.1]
      exact hidx q (by simp [hq])
    show ForestEquiv set (allSubsetsFold ((e, i) :: rest) set sm acc).1
    have hunfold : allSubsetsFold ((e, i) :: rest) set sm acc =
        match lookupIdx sm (findInternal set.length set i).1 with
        | some pos => allSubsetsFold rest (findInternal set.length set i).2 sm
            (acc.set pos (e :: acc.getD pos []))
        | none => allSubsetsFold rest (findInternal set.length set i).2
            (sm ++ [((findInternal set.length set i).1, acc.length)]) (acc ++ [[e]]) := rfl
    rw [hunfold]
    cases lookupIdx sm (findInternal set.length set i).1 with
    | some pos =>
      exact forestEquiv_trans _ _ _ hstep.1 (ih _ _ _ hstep.1.2.2.1 hsub)
    | none =>
      exact forestEquiv_trans _ _ _ hstep.1 (ih _ _ _ hstep.1.2.2.1 hsub)

/-! Effect of each operation on a well-formed state. -/

theorem forestWF_of_WF (s : HashDisjointSet α) (hwf : WF s) : ForestWF s.set :=
  ⟨hwf.bounded, hwf.rooted⟩

theorem mem_snd_of_mem (m : List (α × Nat)) (p : α × Nat) (h : p ∈ m) :
    p.2 ∈ m.map Prod.snd :=
  List.mem_map_of_mem Prod.snd h

theorem entry_lt_of_mem (s : HashDisjointSet α) (hwf : WF s) (p : α × Nat)
    (h : p ∈ s.map) : p.2 < s.set.length := by
  have := mem_snd_of_mem s.map p h
  rw [hwf.idx_range] at this
  exact List.mem_range.mp this

theorem find_ok (s : HashDisjointSet α) (hwf : WF s) (e : α) (i : Nat)
    (h : lookupIdx s.map e = some i) :
    (find s e).1 = Except.ok ⟨s.ver, rootD s.set i, s.set_id⟩ ∧
    (find s e).2.ver = s.ver ∧ (find s e).2.map = s.map ∧
    (find s e).2.subset_count = s.subset_count ∧ (find s e).2.set_id = s.set_id ∧
    WF (find s e).2 ∧ ForestEquiv s.set (find s e).2.set := by
  have hi := lookupIdx_lt s hwf e i h
  have hfe := findInternal_equiv s.set (forestWF_of_WF s hwf) i hi s.set.length le_rfl
  have hred : find s e =
      (Except.ok ⟨s.ver, (findInternal s.set.length s.set i).1, s.set_id⟩,
        { s with set := (findInternal s.set.length s.set i).2 }) := by
    simp only [find, h]
  rw [hred]
  refine ⟨?_, rfl, rfl, rfl, rfl, WF_replace' s hwf _ hfe.1, hfe.1⟩
  rw [hfe.2]

theorem find_err (s : HashDisjointSet α) (e : α) (h : lookupIdx s.map e = none) :
    find s e = (Except.error HashDisjointSetError.ElementNotDefined, s) := by
  simp only [find, h]

theorem same_subset_ok (s : HashDisjointSet α) (hwf : WF s) (a b : α) (a_i b_i : Nat)
    (ha : lookupIdx s.map a = some a_i) (hb : lookupIdx s.map b = some b_i) :
    (same_subset s a b).1 = Except.ok (decide (rootD s.set a_i = rootD s.set b_i)) ∧
    (same_subset s a b).2.ver = s.ver ∧ (same_subset s a b).2.map = s.map ∧
    (same_subset s a b).2.subset_count = s.subset_count ∧
    (same_subset s a b).2.set_id = s.set_id ∧
    WF (same_subset s a b).2 ∧ ForestEquiv s.set (same_subset s a b).2.set := by
  have hai := lookupIdx_lt s hwf a a_i ha
  have hbi := lookupIdx_lt s hwf b b_i hb
  have hfa := findInternal_equiv s.set (forestWF_of_WF s hwf) a_i hai s.set.length le_rfl
  have hbi2 : b_i < (findInternal s.set.length s.set a_i).2.length := by
    rw [hfa.1.1]
    exact hbi
  have hfb := findInternal_equiv (findInternal s.set.length s.set a_i).2 hfa.1.2.2.1 b_i hbi2
    (findInternal s.set.length s.set a_i).2.length le_rfl
  have hred : same_subset s a b =
      (Except.ok (decide ((findInternal s.set.length s.set a_i).1 =
          (findInternal (findInternal s.set.length s.set a_i).2.length
            (findInternal s.set.length s.set a_i).2 b_i).1)),
        { s with set := (findInternal (findInternal s.set.length s.set a_i).2.length
            (findInternal s.set.length s.set a_i).2 b_i).2 }) := by
    simp only [same_subset, ha, hb]
  have hequiv := forestEquiv_trans _ _ _ hfa.1 hfb.1
  rw [hred]
  refine ⟨?_, rfl, rfl, rfl, rfl, WF_replace' s hwf _ hequiv, hequiv⟩
  rw [hfa.2, hfb.2, hfa.1.2.2.2.2 b_i hbi]

theorem same_subset_err_left (s : HashDisjointSet α) (a b : α)
    (h : lookupIdx s.map a = none) :
    same_subset s a b = (Except.error HashDisjointSetError.ElementNotDefined, s) := by
  simp only [same_subset, h]

theorem same_subset_err_right (s : HashDisjointSet α) (a b : α) (a_i : Nat)
    (ha : lookupIdx s.map a = some a_i) (hb : lookupIdx s.map b = none) :
    same_subset s a b = (Except.error HashDisjointSetError.ElementNotDefined, s) := by
  simp only [same_subset, ha, hb]

theorem subset_size_ok (s : HashDisjointSet α) (hwf : WF s) (e : α) (i : Nat)
    (h : lookupIdx s.map e = some i) :
    (subset_size s e).1 = Except.ok (sizeAt s.set (rootD s.set i)) ∧
    (subset_size s e).2.ver = s.ver ∧ (subset_size s e).2.map = s.map ∧
    (subset_size s e).2.subset_count = s.subset_count ∧
    (subset_size s e).2.set_id = s.set_id ∧
    WF (subset_size s e).2 ∧ ForestEquiv s.set (subset_size s e).2.set := by
  have hi := lookupIdx_lt s hwf e i h
  have hfe := findInternal_equiv s.set (forestWF_of_WF s hwf) i hi s.set.length le_rfl
  have hred : subset_size s e =
      (Except.ok (sizeAt (findInternal s.set.length s.set i).2
          (findInternal s.set.length s.set i).1),
        { s with set := (findInternal s.set.length s.set i).2 }) := by
    simp only [subset_size, h]
  rw [hred]
  refine ⟨?_, rfl, rfl, rfl, rfl, WF_replace' s hwf _ hfe.1, hfe.1⟩
  rw [hfe.2, hfe.1.2.1]

theorem subset_size_err (s : HashDisjointSet α) (e : α) (h : lookupIdx s.map e = none) :
    subset_size s e = (Except.error HashDisjointSetError.ElementNotDefined, s) := by
  simp only [subset_size, h]

theorem subset_containing_ok (s : HashDisjointSet α) (hwf : WF s) (e : α) (i : Nat)
    (h : lookupIdx s.map e = some i) (hc : s.subset_count ≠ 0) :
    (∃ members, (subset_containing s e).1 = some (Except.ok members)) ∧
    (subset_containing s e).2.ver = s.ver ∧ (subset_containing s e).2.map = s.map ∧
    (subset_containing s e).2.subset_count = s.subset_count ∧
    (subset_containing s e).2.set_id = s.set_id ∧
    WF (subset_containing s e).2 ∧ ForestEquiv s.set (subset_containing s e).2.set := by
  have hi := lookupIdx_lt s hwf e i h
  have hfe := findInternal_equiv s.set (forestWF_of_WF s hwf) i hi s.set.length le_rfl
  have hfold := subsetFold_equiv (α := α) (findInternal s.set.length s.set i).1 s.map
    (findInternal s.set.length s.set i).2 hfe.1.2.2.1
    (by
      intro p hp
      rw [hfe.1.1]
      exact entry_lt_of_mem s hwf p hp)
  have hequiv := forestEquiv_trans _ _ _ hfe.1 hfold
  have hred : subset_containing s e =
      (some (Except.ok (subsetFold (findInternal s.set.length s.set i).1 s.map
          (findInternal s.set.length s.set i).2).1),
        { s with set := (subsetFold (findInternal s.set.length s.set i).1 s.map
            (findInternal s.set.length s.set i).2).2 }) := by
    simp only [subset_containing, h, hc, if_neg, if_false]
  rw [hred]
  exact ⟨⟨_, rfl⟩, rfl, rfl, rfl, rfl, WF_replace' s hwf _ hequiv, hequiv⟩

theorem subset_containing_err (s : HashDisjointSet α) (e : α)
    (h : lookupIdx s.map e = none) :
    subset_containing s e =
      (some (Except.error HashDisjointSetError.ElementNotDefined), s) := by
  simp only [subset_containing, h]

theorem all_subsets_ok (s : HashDisjointSet α) (hwf : WF s) (hc : s.subset_count ≠ 0) :
    (∃ groups, (all_subsets s).1 = some groups) ∧
    (all_subsets s).2.ver = s.ver ∧ (all_subsets s).2.map = s.map ∧
    (all_subsets s).2.subset_count = s.subset_count ∧
    (all_subsets s).2.set_id = s.set_id ∧
    WF (all_subsets s).2 ∧ ForestEquiv s.set (all_subsets s).2.set := by
  have hfold := allSubsetsFold_equiv (α := α) s.map s.set [] [] (forestWF_of_WF s hwf)
    (fun p hp => entry_lt_of_mem s hwf p hp)
  have hred : all_subsets s =
      (some (allSubsetsFold s.map s.set [] []).2,
        { s with set := (allSubsetsFold s.map s.set [] []).1 }) := by
    simp only [all_subsets, hc, if_neg, if_false]
  rw [hred]
  exact ⟨⟨_, rfl⟩, rfl, rfl, rfl, rfl, WF_replace' s hwf _ hfold, hfold⟩

theorem all_subsets_panics (s : HashDisjointSet α) (hc : s.subset_count = 0) :
    all_subsets s = (none, s) := by
  simp only [all_subsets, hc, if_pos]

theorem union_err_left (s : HashDisjointSet α) (a b : α)
    (h : lookupIdx s.map a = none) :
    union s a b = (Except.error HashDisjointSetError.ElementNotDefined, s) := by
  simp only [union, h]

theorem union_err_right (s : HashDisjointSet α) (a b : α) (a_i : Nat)
    (ha : lookupIdx s.map a = some a_i) (hb : lookupIdx s.map b = none) :
    union s a b = (Except.error HashDisjointSetError.ElementNotDefined, s) := by
  simp only [union, ha, hb]

theorem insert_dup (s : HashDisjointSet α) (e : α) (i : Nat)
    (h : lookupIdx s.map e = some i) :
    insert s e = (Except.error HashDisjointSetError.DuplicateElement, s) := by
  simp only [insert, h]

/-! Effect of a successful `insert`. -/

theorem lookupIdx_none_iff (m : List (α × Nat)) (e : α) :
    lookupIdx m e = none ↔ e ∉ m.map Prod.fst := by
  induction m with
  | nil => simp [lookupIdx]
  | cons kv rest ih =>
    obtain ⟨k, v⟩ := kv
    by_cases hk : k = e
    · simp [lookupIdx, hk]
    · have hstep : lookupIdx ((k, v) :: rest) e = lookupIdx rest e := by
        simp [lookupIdx, hk]
      rw [hstep, ih]
      simp only [List.map_cons, List.mem_cons, not_or]
      constructor
      · intro hni
        exact ⟨fun hek => hk hek.symm, hni⟩
      · intro hni
        exact hni.2

theorem pIter_append_singleton (set : List Unit) (u : Unit)
    (hb : ∀ j < set.length, parentAt set j < set.length) (k j : Nat)
    (hj : j < set.length) :
    pIter (set ++ [u]) k j = pIter set k j := by
  induction k generalizing j with
  | zero => rfl
  | succ k ih =>
    show pIter (set ++ [u]) k (parentAt (set ++ [u]) j) = pIter set k (parentAt set j)
    rw [parentAt_append_left set [u] j hj]
    exact ih (parentAt set j) (hb j hj)

theorem append_singleton_wf (set : List Unit) (hwf : ForestWF set) :
    ForestWF (set ++ [⟨1, set.length⟩]) ∧
    (∀ j, j < set.length → rootD (set ++ [⟨1, set.length⟩]) j = rootD set j) ∧
    rootD (set ++ [⟨1, set.length⟩]) set.length = set.length ∧
    (∀ j, j < set.length → (isRoot (set ++ [⟨1, set.length⟩]) j ↔ isRoot set j)) ∧
    isRoot (set ++ [⟨1, set.length⟩]) set.length := by
  have hlen : (set ++ [(⟨1, set.length⟩ : Unit)]).length = set.length + 1 := by simp
  have hrootn : isRoot (set ++ [⟨1, set.length⟩]) set.length := by
    show parentAt _ set.length = set.length
    rw [parentAt_append_self]
  have hrootiff : ∀ j, j < set.length →
      (isRoot (set ++ [⟨1, set.length⟩]) j ↔ isRoot set j) := by
    intro j hj
    unfold isRoot
    rw [parentAt_append_left set _ j hj]
  have hwf2 : ForestWF (set ++ [⟨1, set.length⟩]) := by
    constructor
    · intro j hj
      rw [hlen] at hj ⊢
      rcases Nat.lt_or_ge j set.length with hjl | hjg
      · rw [parentAt_append_left set _ j hjl]
        have := hwf.1 j hjl
        omega
      · have hj2 : j = set.length := by omega
        rw [hj2, parentAt_append_self]
        show set.length < set.length + 1
        omega
    · intro j hj
      rw [hlen] at hj
      rcases Nat.lt_or_ge j set.length with hjl | hjg
      · obtain ⟨k, hk⟩ := hwf.2 j hjl
        refine ⟨k, ?_⟩
        rw [pIter_append_singleton set _ hwf.1 k j hjl]
        rw [hrootiff _ (pIter_lt set hwf.1 j hjl k)]
        exact hk
      · have hj2 : j = set.length := by omega
        rw [hj2]
        exact ⟨0, hrootn⟩
  have hrootD : ∀ j, j < set.length →
      rootD (set ++ [⟨1, set.length⟩]) j = rootD set j := by
    intro j hj
    obtain ⟨k, hk, hkroot⟩ := rootD_reaches set hwf j hj
    apply rootD_of_reaches _ hwf2 j _ (by rw [hlen]; omega)
    refine ⟨k, ?_, ?_⟩
    · rw [pIter_append_singleton set _ hwf.1 k j hj, hk]
    · rw [hrootiff _ (by rw [← hk]; exact pIter_lt set hwf.1 j hj k)]
      exact hkroot
  refine ⟨hwf2, hrootD, ?_, hrootiff, hrootn⟩
  exact rootD_of_reaches _ hwf2 set.length set.length (by rw [hlen]; omega)
    ⟨0, rfl, hrootn⟩

theorem insert_ok_effect (s : HashDisjointSet α) (hwf : WF s) (e : α)
    (h : lookupIdx s.map e = none) :
    (insert s e).1 = Except.ok PUnit.unit ∧
    WF (insert s e).2 ∧
    (insert s e).2.ver = s.ver + 1 ∧
    (insert s e).2.subset_count = s.subset_count + 1 ∧
    (insert s e).2.set_id = s.set_id ∧
    (insert s e).2.map = s.map ++ [(e, s.set.length)] ∧
    (insert s e).2.set.length = s.set.length + 1 ∧
    (∀ j, j < s.set.length → rootD (insert s e).2.set j = rootD s.set j) := by
  have hred : insert s e =
      (Except.ok PUnit.unit,
        { ver := s.ver + 1, map := s.map ++ [(e, s.set.length)],
          set := s.set ++ [⟨1, s.set.length⟩],
          subset_count := s.subset_count + 1, set_id := s.set_id }) := by
    simp only [insert, h]
  obtain ⟨hwf2, hrootD, hrootn, hrootiff, hrootisn⟩ :=
    append_singleton_wf s.set (forestWF_of_WF s hwf)
  have hlen : (s.set ++ [(⟨1, s.set.length⟩ : Unit)]).length = s.set.length + 1 := by simp
  have hrootD_lt : ∀ j, j < s.set.length → rootD s.set j < s.set.length :=
    fun j hj => rootD_lt s.set (forestWF_of_WF s hwf) j hj
  rw [hred]
  refine ⟨rfl, ?_, rfl, rfl, rfl, rfl, hlen, hrootD⟩
  constructor
  · -- keys remain distinct
    show ((s.map ++ [(e, s.set.length)]).map Prod.fst).Nodup
    rw [List.map_append]
    rw [List.nodup_append]
    refine ⟨hwf.keys_nodup, by simp, ?_⟩
    simp only [List.map_cons, List.map_nil]
    intro x hx hmem
    simp only [List.mem_singleton] at hmem
    rw [hmem] at hx
    exact (lookupIdx_none_iff s.map e).mp h hx
  · -- indices still enumerate the forest
    show ((s.map ++ [(e, s.set.length)]).map Prod.snd) = List.range (s.set ++ _).length
    rw [List.map_append, hwf.idx_range, hlen]
    simp [List.range_succ]
  · exact hwf2.1
  · exact hwf2.2
  · -- sizes at roots count the members
    intro r hr hroot
    rw [hlen] at hr
    rcases Nat.lt_or_ge r s.set.length with hrl | hrg
    · -- an old root keeps its old size and its old members
      show sizeAt (s.set ++ _) r = _
      rw [sizeAt_append_left s.set _ r hrl]
      rw [hwf.size_inv r hrl ((hrootiff r hrl).mp hroot)]
      rw [hlen, Finset.range_succ, Finset.filter_insert, if_neg (by rw [hrootn]; omega)]
      congr 1
      apply Finset.filter_congr
      intro i hi
      rw [hrootD i (Finset.mem_range.mp hi)]
    · -- the fresh node is a singleton root
      have hr2 : r = s.set.length := by omega
      subst hr2
      show sizeAt (s.set ++ _) s.set.length = _
      rw [sizeAt_append_self]
      rw [hlen, Finset.range_succ, Finset.filter_insert, if_pos hrootn]
      have hempty : (Finset.range s.set.length).filter
          (fun i => rootD (s.set ++ [⟨1, s.set.length⟩]) i = s.set.length) = ∅ := by
        apply Finset.filter_eq_empty_iff.mpr
        intro i hi
        rw [hrootD i (Finset.mem_range.mp hi)]
        have := hrootD_lt i (Finset.mem_range.mp hi)
        omega
      rw [hempty]
      simp
  · -- the count gains exactly the new root
    show s.subset_count + 1 = _
    rw [hlen, Finset.range_succ, Finset.filter_insert, if_pos hrootisn]
    rw [Finset.card_insert_of_not_mem (by simp)]
    congr 1
    rw [hwf.count_inv]
    congr 1
    apply Finset.filter_congr
    intro i hi
    exact (hrootiff i (Finset.mem_range.mp hi)).symm

/-! Effect of `union`. -/

theorem union_merge_wf (s : HashDisjointSet α) (hwf : WF s) (set2 : List Unit)
    (he : ForestEquiv s.set set2) (ra rb : Nat)
    (hra : isRoot set2 ra) (hrb : isRoot set2 rb) (hne : ra ≠ rb)
    (hra_lt : ra < set2.length) (hrb_lt : rb < set2.length) :
    WF { s with
      set := setSize (setParent set2 rb ra) ra
        (sizeAt (setParent set2 rb ra) ra + sizeAt (setParent set2 rb ra) rb),
      subset_count := s.subset_count - 1, ver := s.ver + 1 } ∧
    2 ≤ s.subset_count ∧
    (setSize (setParent set2 rb ra) ra
      (sizeAt (setParent set2 rb ra) ra + sizeAt (setParent set2 rb ra) rb)).length
      = s.set.length := by
  have hwf2' : WF { s with set := set2 } := WF_replace' s hwf set2 he
  obtain ⟨hwf3, hrootD3, hrootiff3⟩ :=
    link_wf set2 ra rb he.2.2.1 hra hrb hne hra_lt hrb_lt
  have hlen3 : (setParent set2 rb ra).length = set2.length := length_setParent set2 rb ra
  have hlen4 : (setSize (setParent set2 rb ra) ra
      (sizeAt (setParent set2 rb ra) ra + sizeAt (setParent set2 rb ra) rb)).length
      = set2.length := by
    rw [length_setSize, hlen3]
  have hwf4 : ForestWF (setSize (setParent set2 rb ra) ra
      (sizeAt (setParent set2 rb ra) ra + sizeAt (setParent set2 rb ra) rb)) :=
    forestWF_setSize _ _ _ hwf3
  have hrootD4 : ∀ j, j < set2.length →
      rootD (setSize (setParent set2 rb ra) ra
        (sizeAt (setParent set2 rb ra) ra + sizeAt (setParent set2 rb ra) rb)) j =
      if rootD set2 j = rb then ra else rootD set2 j := by
    intro j hj
    rw [rootD_setSize]
    exact hrootD3 j hj
  have hrootiff4 : ∀ x, isRoot (setSize (setParent set2 rb ra) ra
      (sizeAt (setParent set2 rb ra) ra + sizeAt (setParent set2 rb ra) rb)) x ↔
      (isRoot set2 x ∧ x ≠ rb) := by
    intro x
    rw [isRoot_setSize]
    exact hrootiff3 x
  have hsize4 : ∀ v, sizeAt (setSize (setParent set2 rb ra) ra
      (sizeAt (setParent set2 rb ra) ra + sizeAt (setParent set2 rb ra) rb)) v =
      if ra = v then sizeAt set2 ra + sizeAt set2 rb else sizeAt set2 v := by
    intro v
    rw [sizeAt_setSize]
    by_cases hv : ra = v
    · rw [if_pos ⟨hv, by omega⟩, if_pos hv, sizeAt_setParent, sizeAt_setParent]
    · rw [if_neg (fun hc => hv hc.1), if_neg hv, sizeAt_setParent]
  have hsz2 : s.set.length = set2.length := he.1.symm
  have hcount2 : s.subset_count =
      ((Finset.range set2.length).filter (fun r => isRoot set2 r)).card := by
    have := hwf2'.count_inv
    exact this
  have hsinv2 : ∀ r, r < set2.length → isRoot set2 r →
      sizeAt set2 r = ((Finset.range set2.length).filter (fun i => rootD set2 i = r)).card := by
    intro r hr hroot
    have := hwf2'.size_inv r hr hroot
    exact this
  have hrb_mem : rb ∈ (Finset.range set2.length).filter (fun r => isRoot set2 r) := by
    rw [Finset.mem_filter, Finset.mem_range]
    exact ⟨hrb_lt, hrb⟩
  have hcount_ge : 2 ≤ s.subset_count := by
    rw [hcount2]
    have hsub : ({ra, rb} : Finset Nat) ⊆
        (Finset.range set2.length).filter (fun r => isRoot set2 r) := by
      intro x hx
      rw [Finset.mem_insert, Finset.mem_singleton] at hx
      rw [Finset.mem_filter, Finset.mem_range]
      rcases hx with hx | hx
      · rw [hx]; exact ⟨hra_lt, hra⟩
      · rw [hx]; exact ⟨hrb_lt, hrb⟩
    have hcard2 : ({ra, rb} : Finset Nat).card = 2 := by
      rw [Finset.card_insert_of_not_mem (by simp [hne]), Finset.card_singleton]
    rw [← hcard2]
    exact Finset.card_le_card hsub
  refine ⟨?_, hcount_ge, by rw [hlen4, ← hsz2]⟩
  constructor
  · exact hwf.keys_nodup
  · show s.map.map Prod.snd = List.range _
    rw [hlen4, ← hsz2]
    exact hwf.idx_range
  · exact hwf4.1
  · exact hwf4.2
  · -- size invariant after the merge
    intro r hr hroot
    rw [hlen4] at hr
    obtain ⟨hroot2, hrne⟩ := (hrootiff4 r).mp hroot
    rw [hsize4 r]
    by_cases hr_ra : ra = r
    · -- the surviving root has the merged size and the merged members
      rw [if_pos hr_ra]
      rw [hsinv2 ra hra_lt hra, hsinv2 rb hrb_lt hrb]
      have hsplit : (Finset.range ((setSize (setParent set2 rb ra) ra
          (sizeAt (setParent set2 rb ra) ra + sizeAt (setParent set2 rb ra) rb)).length)).filter
          (fun i => rootD (setSize (setParent set2 rb ra) ra
            (sizeAt (setParent set2 rb ra) ra + sizeAt (setParent set2 rb ra) rb)) i = r) =
          ((Finset.range set2.length).filter (fun i => rootD set2 i = ra)) ∪
          ((Finset.range set2.length).filter (fun i => rootD set2 i = rb)) := by
        rw [hlen4, ← Finset.filter_or]
        apply Finset.filter_congr
        intro i hi
        rw [hrootD4 i (Finset.mem_range.mp hi)]
        by_cases hroot_i : rootD set2 i = rb
        · rw [if_pos hroot_i]
          simp [hroot_i, hr_ra]
        · rw [if_neg hroot_i]
          constructor
          · intro hx
            exact Or.inl (by rw [hx, ← hr_ra])
          · intro hx
            rcases hx with hx | hx
            · rw [hx, hr_ra]
            · exact absurd hx hroot_i
      rw [hsplit, Finset.card_union_of_disjoint]
      apply Finset.disjoint_left.mpr
      intro x hx1 hx2
      rw [Finset.mem_filter] at hx1 hx2
      exact hne (hx1.2.symm.trans hx2.2)
    · -- any other root keeps its size and its members
      rw [if_neg hr_ra]
      rw [hsinv2 r (by omega) hroot2]
      congr 1
      rw [hlen4]
      apply Finset.filter_congr
      intro i hi
      rw [hrootD4 i (Finset.mem_range.mp hi)]
      by_cases hroot_i : rootD set2 i = rb
      · rw [if_pos hroot_i]
        constructor
        · intro hx
          rw [hroot_i] at hx
          exact absurd hx.symm hrne
        · intro hx
          exact absurd hx hr_ra
      · rw [if_neg hroot_i]
  · -- subset count loses exactly the absorbed root
    show s.subset_count - 1 = _
    have hfilter : (Finset.range ((setSize (setParent set2 rb ra) ra
        (sizeAt (setParent set2 rb ra) ra + sizeAt (setParent set2 rb ra) rb)).length)).filter
        (fun x => isRoot (setSize (setParent set2 rb ra) ra
          (sizeAt (setParent set2 rb ra) ra + sizeAt (setParent set2 rb ra) rb)) x) =
        ((Finset.range set2.length).filter (fun x => isRoot set2 x)).erase rb := by
      rw [hlen4, ← Finset.filter_ne']
      rw [Finset.filter_filter]
      apply Finset.filter_congr
      intro x _
      exact hrootiff4 x
    rw [hfilter, Finset.card_erase_of_mem hrb_mem, ← hcount2]

theorem union_ok_effect (s : HashDisjointSet α) (hwf : WF s) (a b : α) (a_i b_i : Nat)
    (ha : lookupIdx s.map a = some a_i) (hb : lookupIdx s.map b = some b_i) :
    (union s a b).1 = Except.ok PUnit.unit ∧
    WF (union s a b).2 ∧
    (union s a b).2.map = s.map ∧
    (union s a b).2.set_id = s.set_id ∧
    (union s a b).2.set.length = s.set.length ∧
    (rootD s.set a_i = rootD s.set b_i →
      (union s a b).2.subset_count = s.subset_count ∧
      (union s a b).2.ver = s.ver ∧
      (∀ j, j < s.set.length → rootD (union s a b).2.set j = rootD s.set j)) ∧
    (rootD s.set a_i ≠ rootD s.set b_i →
      (union s a b).2.subset_count = s.subset_count - 1 ∧
      2 ≤ s.subset_count ∧
      (union s a b).2.ver = s.ver + 1) := by
  have hai := lookupIdx_lt s hwf a a_i ha
  have hbi := lookupIdx_lt s hwf b b_i hb
  have hfa := findInternal_equiv s.set (forestWF_of_WF s hwf) a_i hai s.set.length le_rfl
  have hbi2 : b_i < (findInternal s.set.length s.set a_i).2.length := by
    rw [hfa.1.1]
    exact hbi
  have hfb := findInternal_equiv (findInternal s.set.length s.set a_i).2 hfa.1.2.2.1 b_i hbi2
    (findInternal s.set.length s.set a_i).2.length le_rfl
  have hfb1 : (findInternal (findInternal s.set.length s.set a_i).2.length
      (findInternal s.set.length s.set a_i).2 b_i).1 = rootD s.set b_i := by
    rw [hfb.2, hfa.1.2.2.2.2 b_i hbi]
  have hequiv : ForestEquiv s.set (findInternal (findInternal s.set.length s.set a_i).2.length
      (findInternal s.set.length s.set a_i).2 b_i).2 :=
    forestEquiv_trans _ _ _ hfa.1 hfb.1
  have hlen2 : (findInternal (findInternal s.set.length s.set a_i).2.length
      (findInternal s.set.length s.set a_i).2 b_i).2.length = s.set.length := hequiv.1
  have hRa_root : isRoot s.set (rootD s.set a_i) :=
    rootD_isRoot s.set (forestWF_of_WF s hwf) a_i hai
  have hRb_root : isRoot s.set (rootD s.set b_i) :=
    rootD_isRoot s.set (forestWF_of_WF s hwf) b_i hbi
  have hRa_lt : rootD s.set a_i < s.set.length :=
    rootD_lt s.set (forestWF_of_WF s hwf) a_i hai
  have hRb_lt : rootD s.set b_i < s.set.length :=
    rootD_lt s.set (forestWF_of_WF s hwf) b_i hbi
  by_cases hcase : (findInternal s.set.length s.set a_i).1 =
      (findInternal (findInternal s.set.length s.set a_i).2.length
        (findInternal s.set.length s.set a_i).2 b_i).1
  · -- the two roots coincide: a no-op union
    have hroots : rootD s.set a_i = rootD s.set b_i := by
      rw [← hfa.2, ← hfb1]
      exact hcase
    have hred : union s a b =
        (Except.ok PUnit.unit,
          { s with set := (findInternal (findInternal s.set.length s.set a_i).2.length
              (findInternal s.set.length s.set a_i).2 b_i).2 }) := by
      simp only [union, ha, hb]
      rw [if_pos hcase]
    rw [hred]
    refine ⟨rfl, WF_replace' s hwf _ hequiv, rfl, rfl, hlen2, ?_, ?_⟩
    · intro _
      exact ⟨rfl, rfl, hequiv.2.2.2.2⟩
    · intro hne
      exact absurd hroots hne
  · -- distinct roots: merge by size
    have hroots : rootD s.set a_i ≠ rootD s.set b_i := by
      rw [← hfa.2, ← hfb1]
      exact hcase
    have hRa2 : isRoot (findInternal (findInternal s.set.length s.set a_i).2.length
        (findInternal s.set.length s.set a_i).2 b_i).2 (rootD s.set a_i) :=
      (hequiv.2.2.2.1 _).mpr hRa_root
    have hRb2 : isRoot (findInternal (findInternal s.set.length s.set a_i).2.length
        (findInternal s.set.length s.set a_i).2 b_i).2 (rootD s.set b_i) :=
      (hequiv.2.2.2.1 _).mpr hRb_root
    have hRa_lt2 : rootD s.set a_i < (findInternal (findInternal s.set.length s.set a_i).2.length
        (findInternal s.set.length s.set a_i).2 b_i).2.length := by omega
    have hRb_lt2 : rootD s.set b_i < (findInternal (findInternal s.set.length s.set a_i).2.length
        (findInternal s.set.length s.set a_i).2 b_i).2.length := by omega
    by_cases hsz : sizeAt (findInternal (findInternal s.set.length s.set a_i).2.length
        (findInternal s.set.length s.set a_i).2 b_i).2 (findInternal s.set.length s.set a_i).1 <
        sizeAt (findInternal (findInternal s.set.length s.set a_i).2.length
          (findInternal s.set.length s.set a_i).2 b_i).2
          (findInternal (findInternal s.set.length s.set a_i).2.length
            (findInternal s.set.length s.set a_i).2 b_i).1
    · -- the second root survives
      have hred : union s a b =
          (Except.ok PUnit.unit,
            { s with
              set := setSize (setParent (findInternal (findInternal s.set.length s.set a_i).2.length
                  (findInternal s.set.length s.set a_i).2 b_i).2
                  (findInternal s.set.length s.set a_i).1
                  (findInternal (findInternal s.set.length s.set a_i).2.length
                    (findInternal s.set.length s.set a_i).2 b_i).1)
                (findInternal (findInternal s.set.length s.set a_i).2.length
                  (findInternal s.set.length s.set a_i).2 b_i).1
                (sizeAt (setParent (findInternal (findInternal s.set.length s.set a_i).2.length
                    (findInternal s.set.length s.set a_i).2 b_i).2
                    (findInternal s.set.length s.set a_i).1
                    (findInternal (findInternal s.set.length s.set a_i).2.length
                      (findInternal s.set.length s.set a_i).2 b_i).1)
                  (findInternal (findInternal s.set.length s.set a_i).2.length
                    (findInternal s.set.length s.set a_i).2 b_i).1 +
                sizeAt (setParent (findInternal (findInternal s.set.length s.set a_i).2.length
                    (findInternal s.set.length s.set a_i).2 b_i).2
                    (findInternal s.set.length s.set a_i).1
                    (findInternal (findInternal s.set.length s.set a_i).2.length
                      (findInternal s.set.length s.set a_i).2 b_i).1)
                  (findInternal s.set.length s.set a_i).1),
              subset_count := s.subset_count - 1, ver := s.ver + 1 }) := by
        simp only [union, ha, hb]
        rw [if_neg hcase, if_pos hsz, if_pos hsz]
      obtain ⟨hwfm, hge, hlenm⟩ := union_merge_wf s hwf _ hequiv
        (findInternal (findInternal s.set.length s.set a_i).2.length
          (findInternal s.set.length s.set a_i).2 b_i).1
        (findInternal s.set.length s.set a_i).1
        (by rw [hfb1]; exact hRb2) (by rw [hfa.2]; exact hRa2)
        (by rw [hfa.2, hfb1]; exact fun h => hroots h.symm)
        (by rw [hfb1]; exact hRb_lt2) (by rw [hfa.2]; exact hRa_lt2)
      rw [hred]
      refine ⟨rfl, hwfm, rfl, rfl, hlenm, ?_, ?_⟩
      · intro heq
        exact absurd heq hroots
      · intro _
        exact ⟨rfl, hge, rfl⟩
    · -- the first root survives
      have hred : union s a b =
          (Except.ok PUnit.unit,
            { s with
              set := setSize (setParent (findInternal (findInternal s.set.length s.set a_i).2.length
                  (findInternal s.set.length s.set a_i).2 b_i).2
                  (findInternal (findInternal s.set.length s.set a_i).2.length
                    (findInternal s.set.length s.set a_i).2 b_i).1
                  (findInternal s.set.length s.set a_i).1)
                (findInternal s.set.length s.set a_i).1
                (sizeAt (setParent (findInternal (findInternal s.set.length s.set a_i).2.length
                    (findInternal s.set.length s.set a_i).2 b_i).2
                    (findInternal (findInternal s.set.length s.set a_i).2.length
                      (findInternal s.set.length s.set a_i).2 b_i).1
                    (findInternal s.set.length s.set a_i).1)
                  (findInternal s.set.length s.set a_i).1 +
                sizeAt (setParent (findInternal (findInternal s.set.length s.set a_i).2.length
                    (findInternal s.set.length s.set a_i).2 b_i).2
                    (findInternal (findInternal s.set.length s.set a_i).2.length
                      (findInternal s.set.length s.set a_i).2 b_i).1
                    (findInternal s.set.length s.set a_i).1)
                  (findInternal (findInternal s.set.length s.set a_i).2.length
                    (findInternal s.set.length s.set a_i).2 b_i).1),
              subset_count := s.subset_count - 1, ver := s.ver + 1 }) := by
        simp only [union, ha, hb]
        rw [if_neg hcase, if_neg hsz, if_neg hsz]
      obtain ⟨hwfm, hge, hlenm⟩ := union_merge_wf s hwf _ hequiv
        (findInternal s.set.length s.set a_i).1
        (findInternal (findInternal s.set.length s.set a_i).2.length
          (findInternal s.set.length s.set a_i).2 b_i).1
        (by rw [hfa.2]; exact hRa2) (by rw [hfb1]; exact hRb2)
        (by rw [hfa.2, hfb1]; exact hroots)
        (by rw [hfa.2]; exact hRa_lt2) (by rw [hfb1]; exact hRb_lt2)
      rw [hred]
      refine ⟨rfl, hwfm, rfl, rfl, hlenm, ?_, ?_⟩
      · intro heq
        exact absurd heq hroots
      · intro _
        exact ⟨rfl, hge, rfl⟩

/-! Construction: `Default::default()` and `FromIterator::from_iter`. -/

theorem WF_default (counter : Nat) : WF ((defaultWithCounter (α := α) counter).1) := by
  constructor
  · simp [defaultWithCounter]
  · simp [defaultWithCounter]
  · intro i hi
    simp [defaultWithCounter] at hi
  · intro i hi
    simp [defaultWithCounter] at hi
  · intro r hr
    simp [defaultWithCounter] at hr
  · simp [defaultWithCounter]

theorem lookupIdx_some_mem (m : List (α × Nat)) (e : α) (i : Nat)
    (h : lookupIdx m e = some i) : e ∈ m.map Prod.fst := by
  by_contra hmem
  rw [← lookupIdx_none_iff] at hmem
  rw [hmem] at h
  exact Option.noConfusion h

theorem fromIterAux_invariant (l : List α) :
    ∀ (map : List (α × Nat)) (set : List Unit),
    (map.map Prod.fst).Nodup →
    map.map Prod.snd = List.range set.length →
    (∀ i, i < set.length → set.getD i ⟨0, 0⟩ = ⟨1, i⟩) →
    ((fromIterAux l map set).1.map Prod.fst).Nodup ∧
    (fromIterAux l map set).1.map Prod.snd = List.range (fromIterAux l map set).2.length ∧
    (∀ i, i < (fromIterAux l map set).2.length →
      (fromIterAux l map set).2.getD i ⟨0, 0⟩ = ⟨1, i⟩) := by
  induction l with
  | nil =>
    intro map set h1 h2 h3
    exact ⟨h1, h2, h3⟩
  | cons e rest ih =>
    intro map set h1 h2 h3
    cases hl : lookupIdx map e with
    | some i =>
      have hred : fromIterAux (e :: rest) map set = fromIterAux rest map set := by
        simp only [fromIterAux, hl]
      rw [hred]
      exact ih map set h1 h2 h3
    | none =>
      have hred : fromIterAux (e :: rest) map set =
          fromIterAux rest (map ++ [(e, set.length)]) (set ++ [⟨1, set.length⟩]) := by
        simp only [fromIterAux, hl]
      rw [hred]
      apply ih
      · rw [List.map_append, List.nodup_append]
        refine ⟨h1, by simp, ?_⟩
        simp only [List.map_cons, List.map_nil]
        intro x hx hmem
        simp only [List.mem_singleton] at hmem
        rw [hmem] at hx
        exact (lookupIdx_none_iff map e).mp hl hx
      · rw [List.map_append, h2]
        simp [List.range_succ]
      · intro i hi
        simp only [List.length_append, List.length_cons, List.length_nil] at hi
        rcases Nat.lt_or_ge i set.length with hil | hig
        · rw [List.getD_eq_getElem?_getD, List.getElem?_append, if_pos hil,
            ← List.getD_eq_getElem?_getD]
          exact h3 i hil
        · have : i = set.length := by omega
          rw [this]
          simp [List.getD_eq_getElem?_getD]

theorem fromIterAux_keys_mem (l : List α) :
    ∀ (map : List (α × Nat)) (set : List Unit) (e : α),
    e ∈ (fromIterAux l map set).1.map Prod.fst ↔ e ∈ map.map Prod.fst ∨ e ∈ l := by
  induction l with
  | nil =>
    intro map set e
    simp [fromIterAux]
  | cons a rest ih =>
    intro map set e
    cases hl : lookupIdx map a with
    | some i =>
      have hred : fromIterAux (a :: rest) map set = fromIterAux rest map set := by
        simp only [fromIterAux, hl]
      rw [hred, ih]
      have hamem := lookupIdx_some_mem map a i hl
      constructor
      · rintro (h | h)
        · exact Or.inl h
        · exact Or.inr (List.mem_cons_of_mem a h)
      · rintro (h | h)
        · exact Or.inl h
        · rcases List.mem_cons.mp h with he | he
          · rw [he]
            exact Or.inl hamem
          · exact Or.inr he
    | none =>
      have hred : fromIterAux (a :: rest) map set =
          fromIterAux rest (map ++ [(a, set.length)]) (set ++ [⟨1, set.length⟩]) := by
        simp only [fromIterAux, hl]
      rw [hred, ih]
      simp only [List.map_append, List.map_cons, List.map_nil, List.mem_append,
        List.mem_singleton, List.mem_cons]
      tauto

theorem fromIterAux_append (l1 l2 : List α) :
    ∀ (map : List (α × Nat)) (set : List Unit),
    fromIterAux (l1 ++ l2) map set =
      fromIterAux l2 (fromIterAux l1 map set).1 (fromIterAux l1 map set).2 := by
  induction l1 with
  | nil =>
    intro map set
    rfl
  | cons a rest ih =>
    intro map set
    cases hl : lookupIdx map a with
    | some i =>
      have h1 : fromIterAux ((a :: rest) ++ l2) map set = fromIterAux (rest ++ l2) map set := by
        simp only [List.cons_append, fromIterAux, hl]
        exact rfl
      have h2 : fromIterAux (a :: rest) map set = fromIterAux rest map set := by
        simp only [fromIterAux, hl]
      rw [h1, h2, ih]
    | none =>
      have h1 : fromIterAux ((a :: rest) ++ l2) map set =
          fromIterAux (rest ++ l2) (map ++ [(a, set.length)]) (set ++ [⟨1, set.length⟩]) := by
        simp only [List.cons_append, fromIterAux, hl]
        exact rfl
      have h2 : fromIterAux (a :: rest) map set =
          fromIterAux rest (map ++ [(a, set.length)]) (set ++ [⟨1, set.length⟩]) := by
        simp only [fromIterAux, hl]
      rw [h1, h2, ih]

/-- A forest of fresh singleton nodes is well-formed, its every node is a
root, and `rootD` is the identity on it. -/
theorem singleton_forest_wf (set : List Unit)
    (h : ∀ i, i < set.length → set.getD i ⟨0, 0⟩ = ⟨1, i⟩) :
    ForestWF set ∧ (∀ i, i < set.length → isRoot set i) ∧
    (∀ i, i < set.length → rootD set i = i) ∧
    (∀ i, i < set.length → sizeAt set i = 1) := by
  have hroot : ∀ i, i < set.length → isRoot set i := by
    intro i hi
    show parentAt set i = i
    unfold parentAt
    rw [h i hi]
  have hwf : ForestWF set := by
    constructor
    · intro i hi
      rw [hroot i hi]
      exact hi
    · intro i hi
      exact ⟨0, hroot i hi⟩
  refine ⟨hwf, hroot, ?_, ?_⟩
  · intro i hi
    exact rootD_root set hwf i hi (hroot i hi)
  · intro i hi
    unfold sizeAt
    rw [h i hi]

theorem WF_from_iter (l : List α) (counter : Nat) : WF (from_iter l counter).1 := by
  obtain ⟨h1, h2, h3⟩ := fromIterAux_invariant l [] [] (by simp) (by simp) (by intro i hi; simp at hi)
  obtain ⟨hwf, hroot, hrootD, hsize⟩ := singleton_forest_wf (fromIterAux l [] []).2 h3
  have hmaplen : (fromIterAux l [] []).1.length = (fromIterAux l [] []).2.length := by
    have := congrArg List.length h2
    simpa using this
  constructor
  · exact h1
  · exact h2
  · exact hwf.1
  · exact hwf.2
  · intro r hr hrootr
    show sizeAt (fromIterAux l [] []).2 r =
      ((Finset.range (fromIterAux l [] []).2.length).filter
        (fun i => rootD (fromIterAux l [] []).2 i = r)).card
    rw [hsize r hr]
    have hfilter : (Finset.range (fromIterAux l [] []).2.length).filter
        (fun i => rootD (fromIterAux l [] []).2 i = r) = {r} := by
      apply Finset.eq_singleton_iff_unique_mem.mpr
      constructor
      · rw [Finset.mem_filter, Finset.mem_range]
        exact ⟨hr, hrootD r hr⟩
      · intro x hx
        rw [Finset.mem_filter, Finset.mem_range] at hx
        rw [hrootD x hx.1] at hx
        exact hx.2
    rw [hfilter, Finset.card_singleton]
  · show (fromIterAux l [] []).1.length =
      ((Finset.range (fromIterAux l [] []).2.length).filter
        (fun r => isRoot (fromIterAux l [] []).2 r)).card
    have hfilter : (Finset.range (fromIterAux l [] []).2.length).filter
        (fun r => isRoot (fromIterAux l [] []).2 r) =
        Finset.range (fromIterAux l [] []).2.length := by
      apply Finset.filter_true_of_mem
      intro x hx
      exact hroot x (Finset.mem_range.mp hx)
    rw [hfilter, Finset.card_range, hmaplen]

theorem from_iter_subset_count (l : List α) (counter : Nat) :
    (from_iter l counter).1.subset_count = l.dedup.length := by
  obtain ⟨h1, _, _⟩ := fromIterAux_invariant l [] [] (by simp) (by simp) (by intro i hi; simp at hi)
  show (fromIterAux l [] []).1.length = _
  have hkeylen : (fromIterAux l [] []).1.length =
      ((fromIterAux l [] []).1.map Prod.fst).length := by simp
  rw [hkeylen]
  rw [← List.toFinset_card_of_nodup h1]
  rw [← List.card_toFinset l]
  congr 1
  apply Finset.ext
  intro e
  rw [List.mem_toFinset, List.mem_toFinset, fromIterAux_keys_mem l [] [] e]
  simp

theorem from_iter_dup_noop (l : List α) (e : α) (counter : Nat) (h : e ∈ l) :
    from_iter (l ++ [e]) counter = from_iter l counter := by
  unfold from_iter
  rw [fromIterAux_append l [e] [] []]
  have hmem : e ∈ (fromIterAux l [] []).1.map Prod.fst := by
    rw [fromIterAux_keys_mem l [] [] e]
    exact Or.inr h
  have hlookup : ∃ i, lookupIdx (fromIterAux l [] []).1 e = some i := by
    cases hl : lookupIdx (fromIterAux l [] []).1 e with
    | none => exact absurd ((lookupIdx_none_iff _ e).mp hl) (by simp [hmem])
    | some i => exact ⟨i, rfl⟩
  obtain ⟨i, hi⟩ := hlookup
  have : fromIterAux [e] (fromIterAux l [] []).1 (fromIterAux l [] []).2 =
      fromIterAux [] (fromIterAux l [] []).1 (fromIterAux l [] []).2 := by
    simp only [fromIterAux, hi]
  rw [this]
  exact rfl

theorem subset_containing_panic_effect (s : HashDisjointSet α) (hwf : WF s) (e : α)
    (i : Nat) (h : lookupIdx s.map e = some i) (hc : s.subset_count = 0) :
    (subset_containing s e).2 = { s with set := (findInternal s.set.length s.set i).2 } ∧
    WF (subset_containing s e).2 := by
  have hi := lookupIdx_lt s hwf e i h
  have hfe := findInternal_equiv s.set (forestWF_of_WF s hwf) i hi s.set.length le_rfl
  have hred : subset_containing s e =
      (none, { s with set := (findInternal s.set.length s.set i).2 }) := by
    simp only [subset_containing, h, hc, if_pos]
  rw [hred]
  exact ⟨rfl, WF_replace' s hwf _ hfe.1⟩

theorem step_wf (s s2 : HashDisjointSet α) (hwf : WF s) (h : Step s s2) : WF s2 := by
  cases h with
  | insertStep e =>
    cases hl : lookupIdx s.map e with
    | some i => rw [insert_dup s e i hl]; exact hwf
    | none => exact (insert_ok_effect s hwf e hl).2.1
  | unionStep a b =>
    cases hla : lookupIdx s.map a with
    | none => rw [union_err_left s a b hla]; exact hwf
    | some a_i =>
      cases hlb : lookupIdx s.map b with
      | none => rw [union_err_right s a b a_i hla hlb]; exact hwf
      | some b_i => exact (union_ok_effect s hwf a b a_i b_i hla hlb).2.1
  | findStep e =>
    cases hl : lookupIdx s.map e with
    | none => rw [find_err s e hl]; exact hwf
    | some i => exact (find_ok s hwf e i hl).2.2.2.2.2.1
  | sameSubsetStep a b =>
    cases hla : lookupIdx s.map a with
    | none => rw [same_subset_err_left s a b hla]; exact hwf
    | some a_i =>
      cases hlb : lookupIdx s.map b with
      | none => rw [same_subset_err_right s a b a_i hla hlb]; exact hwf
      | some b_i => exact (same_subset_ok s hwf a b a_i b_i hla hlb).2.2.2.2.2.1
  | subsetSizeStep e =>
    cases hl : lookupIdx s.map e with
    | none => rw [subset_size_err s e hl]; exact hwf
    | some i => exact (subset_size_ok s hwf e i hl).2.2.2.2.2.1
  | subsetContainingStep e =>
    cases hl : lookupIdx s.map e with
    | none => rw [subset_containing_err s e hl]; exact hwf
    | some i =>
      by_cases hc : s.subset_count = 0
      · exact (subset_containing_panic_effect s hwf e i hl hc).2
      · exact (subset_containing_ok s hwf e i hl hc).2.2.2.2.2.1
  | allSubsetsStep =>
    by_cases hc : s.subset_count = 0
    · rw [all_subsets_panics s hc]; exact hwf
    · exact (all_subsets_ok s hwf hc).2.2.2.2.2.1

theorem step_frame (s s2 : HashDisjointSet α) (hwf : WF s) (h : Step s s2) :
    s2.set_id = s.set_id ∧ s.ver ≤ s2.ver ∧ (∃ ext, s2.map = s.map ++ ext) ∧
    (s2.ver = s.ver →
      s2.map = s.map ∧ s2.subset_count = s.subset_count ∧
      s2.set.length = s.set.length ∧
      (∀ j, j < s.set.length → rootD s2.set j = rootD s.set j)) := by
  cases h with
  | insertStep e =>
    cases hl : lookupIdx s.map e with
    | some i =>
      rw [insert_dup s e i hl]
      exact ⟨rfl, le_rfl, ⟨[], by simp⟩, fun _ => ⟨rfl, rfl, rfl, fun _ _ => rfl⟩⟩
    | none =>
      obtain ⟨_, _, hver, _, hsid, hmap, _, _⟩ := insert_ok_effect s hwf e hl
      refine ⟨hsid, by omega, ⟨[(e, s.set.length)], hmap⟩, fun hv => ?_⟩
      omega
  | unionStep a b =>
    cases hla : lookupIdx s.map a with
    | none =>
      rw [union_err_left s a b hla]
      exact ⟨rfl, le_rfl, ⟨[], by simp⟩, fun _ => ⟨rfl, rfl, rfl, fun _ _ => rfl⟩⟩
    | some a_i =>
      cases hlb : lookupIdx s.map b with
      | none =>
        rw [union_err_right s a b a_i hla hlb]
        exact ⟨rfl, le_rfl, ⟨[], by simp⟩, fun _ => ⟨rfl, rfl, rfl, fun _ _ => rfl⟩⟩
      | some b_i =>
        obtain ⟨_, _, hmap, hsid, hlen, hsame, hdiff⟩ :=
          union_ok_effect s hwf a b a_i b_i hla hlb
        by_cases hroots : rootD s.set a_i = rootD s.set b_i
        · obtain ⟨hcount, hver, hrootD⟩ := hsame hroots
          exact ⟨hsid, by omega, ⟨[], by simp [hmap]⟩,
            fun _ => ⟨hmap, hcount, hlen, hrootD⟩⟩
        · obtain ⟨hcount, hge, hver⟩ := hdiff hroots
          exact ⟨hsid, by omega, ⟨[], by simp [hmap]⟩, fun hv => by omega⟩
  | findStep e =>
    cases hl : lookupIdx s.map e with
    | none =>
      rw [find_err s e hl]
      exact ⟨rfl, le_rfl, ⟨[], by simp⟩, fun _ => ⟨rfl, rfl, rfl, fun _ _ => rfl⟩⟩
    | some i =>
      obtain ⟨_, hver, hmap, hcount, hsid, _, hequiv⟩ := find_ok s hwf e i hl
      exact ⟨hsid, by omega, ⟨[], by simp [hmap]⟩,
        fun _ => ⟨hmap, hcount, hequiv.1, hequiv.2.2.2.2⟩⟩
  | sameSubsetStep a b =>
    cases hla : lookupIdx s.map a with
    | none =>
      rw [same_subset_err_left s a b hla]
      exact ⟨rfl, le_rfl, ⟨[], by simp⟩, fun _ => ⟨rfl, rfl, rfl, fun _ _ => rfl⟩⟩
    | some a_i =>
      cases hlb : lookupIdx s.map b with
      | none =>
        rw [same_subset_err_right s a b a_i hla hlb]
        exact ⟨rfl, le_rfl, ⟨[], by simp⟩, fun _ => ⟨rfl, rfl, rfl, fun _ _ => rfl⟩⟩
      | some b_i =>
        obtain ⟨_, hver, hmap, hcount, hsid, _, hequiv⟩ :=
          same_subset_ok s hwf a b a_i b_i hla hlb
        exact ⟨hsid, by omega, ⟨[], by simp [hmap]⟩,
          fun _ => ⟨hmap, hcount, hequiv.1, hequiv.2.2.2.2⟩⟩
  | subsetSizeStep e =>
    cases hl : lookupIdx s.map e with
    | none =>
      rw [subset_size_err s e hl]
      exact ⟨rfl, le_rfl, ⟨[], by simp⟩, fun _ => ⟨rfl, rfl, rfl, fun _ _ => rfl⟩⟩
    | some i =>
      obtain ⟨_, hver, hmap, hcount, hsid, _, hequiv⟩ := subset_size_ok s hwf e i hl
      exact ⟨hsid, by omega, ⟨[], by simp [hmap]⟩,
        fun _ => ⟨hmap, hcount, hequiv.1, hequiv.2.2.2.2⟩⟩
  | subsetContainingStep e =>
    cases hl : lookupIdx s.map e with
    | none =>
      rw [subset_containing_err s e hl]
      exact ⟨rfl, le_rfl, ⟨[], by simp⟩, fun _ => ⟨rfl, rfl, rfl, fun _ _ => rfl⟩⟩
    | some i =>
      by_cases hc : s.subset_count = 0
      · have hi := lookupIdx_lt s hwf e i hl
        have hfe := findInternal_equiv s.set (forestWF_of_WF s hwf) i hi s.set.length le_rfl
        rw [(subset_containing_panic_effect s hwf e i hl hc).1]
        exact ⟨rfl, le_rfl, ⟨[], by simp⟩,
          fun _ => ⟨rfl, rfl, hfe.1.1, hfe.1.2.2.2.2⟩⟩
      · obtain ⟨_, hver, hmap, hcount, hsid, _, hequiv⟩ :=
          subset_containing_ok s hwf e i hl hc
        exact ⟨hsid, by omega, ⟨[], by simp [hmap]⟩,
          fun _ => ⟨hmap, hcount, hequiv.1, hequiv.2.2.2.2⟩⟩
  | allSubsetsStep =>
    by_cases hc : s.subset_count = 0
    · rw [all_subsets_panics s hc]
      exact ⟨rfl, le_rfl, ⟨[], by simp⟩, fun _ => ⟨rfl, rfl, rfl, fun _ _ => rfl⟩⟩
    · obtain ⟨_, hver, hmap, hcount, hsid, _, hequiv⟩ := all_subsets_ok s hwf hc
      exact ⟨hsid, by omega, ⟨[], by simp [hmap]⟩,
        fun _ => ⟨hmap, hcount, hequiv.1, hequiv.2.2.2.2⟩⟩

theorem init_wf (s : HashDisjointSet α) (h : Init s) : WF s := by
  rcases h with ⟨c, hc⟩ | ⟨l, c, hc⟩
  · rw [hc]; exact WF_default c
  · rw [hc]; exact WF_from_iter l c

theorem reachableFrom_wf (s1 s2 : HashDisjointSet α) (hwf : WF s1)
    (h : ReachableFrom s1 s2) : WF s2 := by
  induction h with
  | refl => exact hwf
  | tail sb sc hab hbc ih => exact step_wf sb sc ih hbc

theorem reachable_wf (s : HashDisjointSet α) (h : Reachable s) : WF s := by
  obtain ⟨s0, hinit, hreach⟩ := h
  exact reachableFrom_wf s0 s (init_wf s0 hinit) hreach

theorem reachableFrom_frame (s1 s2 : HashDisjointSet α) (hwf : WF s1)
    (h : ReachableFrom s1 s2) :
    s2.set_id = s1.set_id ∧ s1.ver ≤ s2.ver ∧ (∃ ext, s2.map = s1.map ++ ext) ∧
    (s2.ver = s1.ver →
      s2.map = s1.map ∧ s2.subset_count = s1.subset_count ∧
      s2.set.length = s1.set.length ∧
      (∀ j, j < s1.set.length → rootD s2.set j = rootD s1.set j)) := by
  induction h with
  | refl =>
    exact ⟨rfl, le_rfl, ⟨[], by simp⟩, fun _ => ⟨rfl, rfl, rfl, fun _ _ => rfl⟩⟩
  | tail sb sc hab hbc ih =>
    have hwfb := reachableFrom_wf s1 sb hwf hab
    obtain ⟨hid1, hver1, ⟨ext1, hmap1⟩, hfr1⟩ := ih
    obtain ⟨hid2, hver2, ⟨ext2, hmap2⟩, hfr2⟩ := step_frame sb sc hwfb hbc
    refine ⟨hid2.trans hid1, le_trans hver1 hver2,
      ⟨ext1 ++ ext2, by rw [hmap2, hmap1, List.append_assoc]⟩, fun hv => ?_⟩
    have hvb : sb.ver = s1.ver := by omega
    have hvc : sc.ver = sb.ver := by omega
    obtain ⟨hm1, hc1, hl1, hr1⟩ := hfr1 hvb
    obtain ⟨hm2, hc2, hl2, hr2⟩ := hfr2 hvc
    refine ⟨hm2.trans hm1, hc2.trans hc1, hl2.trans hl1, fun j hj => ?_⟩
    rw [hr2 j (by omega), hr1 j hj]

theorem lookupIdx_append_left_some (m ext : List (α × Nat)) (e : α) (i : Nat)
    (h : lookupIdx m e = some i) : lookupIdx (m ++ ext) e = some i := by
  induction m with
  | nil => exact absurd h (by simp [lookupIdx])
  | cons kv rest ih =>
    obtain ⟨k, v⟩ := kv
    by_cases hk : k = e
    · simp only [lookupIdx, if_pos hk] at h ⊢
      exact h
    · simp only [lookupIdx, if_neg hk] at h ⊢
      exact ih h

/-! The claims. -/

/-- Claim C3 (code bug): the spec says `all_subsets` never fails, but on an
instance with zero registered elements the first statement of the source,
`let avg_set_size = self.set.len() / self.subset_count;`, divides by zero
and panics.  This theorem evaluates the embedded code at the failing input:
a fresh `default()` instance, where the panic (modelled as `none`) occurs
and no sequence of sets is returned. -/
theorem C3_all_subsets_panics_on_empty :
    (all_subsets ((defaultWithCounter (α := Nat) 0).1)).1 = none ∧
    ((defaultWithCounter (α := Nat) 0).1).subset_count = 0 ∧
    ((defaultWithCounter (α := Nat) 0).1).map = [] := by
  refine ⟨?_, rfl, rfl⟩
  rw [all_subsets_panics _ rfl]

/-- Claim C4: every failing call (`DuplicateElement` from `insert`;
`ElementNotDefined` from `union`, `find`, `same_subset`, `subset_size`,
`subset_containing`) returns the state exactly as it was — the source checks
its lookups before performing any mutation; in particular `union(a, b)` with
`a` registered and `b` unregistered fails without mutating anything. -/
theorem C4_failing_calls_leave_state_unchanged (s : HashDisjointSet α) :
    (∀ e err, (insert s e).1 = Except.error err → (insert s e).2 = s) ∧
    (∀ a b err, (union s a b).1 = Except.error err → (union s a b).2 = s) ∧
    (∀ e err, (find s e).1 = Except.error err → (find s e).2 = s) ∧
    (∀ a b err, (same_subset s a b).1 = Except.error err → (same_subset s a b).2 = s) ∧
    (∀ e err, (subset_size s e).1 = Except.error err → (subset_size s e).2 = s) ∧
    (∀ e err, (subset_containing s e).1 = some (Except.error err) →
      (subset_containing s e).2 = s) ∧
    (∀ a b a_i, lookupIdx s.map a = some a_i → lookupIdx s.map b = none →
      union s a b = (Except.error HashDisjointSetError.ElementNotDefined, s)) := by
  refine ⟨?_, ?_, ?_, ?_, ?_, ?_, fun a b a_i ha hb => union_err_right s a b a_i ha hb⟩
  · intro e err herr
    cases hl : lookupIdx s.map e with
    | some i => rw [insert_dup s e i hl]
    | none =>
      have : (insert s e).1 = Except.ok PUnit.unit := by
        simp only [insert, hl]
      rw [this] at herr
      exact Except.noConfusion herr
  · intro a b err herr
    cases hla : lookupIdx s.map a with
    | none => rw [union_err_left s a b hla]
    | some a_i =>
      cases hlb : lookupIdx s.map b with
      | none => rw [union_err_right s a b a_i hla hlb]
      | some b_i =>
        have : (union s a b).1 = Except.ok PUnit.unit := by
          simp only [union, hla, hlb]
          split
          · rfl
          · rfl
        rw [this] at herr
        exact Except.noConfusion herr
  · intro e err herr
    cases hl : lookupIdx s.map e with
    | none => rw [find_err s e hl]
    | some i =>
      have : (find s e).1 = Except.ok ⟨s.ver, (findInternal s.set.length s.set i).1, s.set_id⟩ := by
        simp only [find, hl]
      rw [this] at herr
      exact Except.noConfusion herr
  · intro a b err herr
    cases hla : lookupIdx s.map a with
    | none => rw [same_subset_err_left s a b hla]
    | some a_i =>
      cases hlb : lookupIdx s.map b with
      | none => rw [same_subset_err_right s a b a_i hla hlb]
      | some b_i =>
        have : (same_subset s a b).1 = Except.ok (decide ((findInternal s.set.length s.set a_i).1 =
            (findInternal (findInternal s.set.length s.set a_i).2.length
              (findInternal s.set.length s.set a_i).2 b_i).1)) := by
          simp only [same_subset, hla, hlb]
        rw [this] at herr
        exact Except.noConfusion herr
  · intro e err herr
    cases hl : lookupIdx s.map e with
    | none => rw [subset_size_err s e hl]
    | some i =>
      have : (subset_size s e).1 = Except.ok (sizeAt (findInternal s.set.length s.set i).2
          (findInternal s.set.length s.set i).1) := by
        simp only [subset_size, hl]
      rw [this] at herr
      exact Except.noConfusion herr
  · intro e err herr
    cases hl : lookupIdx s.map e with
    | none => rw [subset_containing_err s e hl]
    | some i =>
      by_cases hc : s.subset_count = 0
      · have : (subset_containing s e).1 = none := by
          simp only [subset_containing, hl, hc, if_pos]
        rw [this] at herr
        exact Option.noConfusion herr
      · have : (subset_containing s e).1 = some (Except.ok (subsetFold
            (findInternal s.set.length s.set i).1 s.map
            (findInternal s.set.length s.set i).2).1) := by
          simp only [subset_containing, hl, hc, if_neg, if_false]
        rw [this] at herr
        have := Option.some.inj herr
        exact Except.noConfusion this

/-- Witness for C4 on a concrete instance: a duplicate insert and a union
with one unregistered side both fail and leave the two-element state intact. -/
theorem C4_witness :
    ((insert (from_iter [0, 1] 0).1 (0 : Nat)).1 =
      Except.error HashDisjointSetError.DuplicateElement) ∧
    (insert (from_iter [0, 1] 0).1 (0 : Nat)).2 = (from_iter [0, 1] 0).1 ∧
    (lookupIdx (from_iter [0, 1] 0).1.map (0 : Nat) = some 0) ∧
    (lookupIdx (from_iter [0, 1] 0).1.map (7 : Nat) = none) ∧
    union (from_iter [0, 1] 0).1 (0 : Nat) 7 =
      (Except.error HashDisjointSetError.ElementNotDefined, (from_iter [0, 1] 0).1) :=
  ⟨rfl,
    (C4_failing_calls_leave_state_unchanged (from_iter [0, 1] 0).1).1 0
      HashDisjointSetError.DuplicateElement rfl,
    rfl, rfl,
    (C4_failing_calls_leave_state_unchanged (from_iter [0, 1] 0).1).2.2.2.2.2.2 0 7 0
      rfl rfl⟩

/-- Claim C2: on any reachable instance, a union of two registered elements
succeeds; it decrements `subset_count` by exactly 1 when they resolved to
different roots (there were at least two subsets, so the subtraction is
exact) and leaves it unchanged when they already shared a root; a failed
union leaves the count unchanged. -/
theorem C2_union_count_law (s : HashDisjointSet α) (hr : Reachable s) :
    (∀ a b a_i b_i, lookupIdx s.map a = some a_i → lookupIdx s.map b = some b_i →
      (union s a b).1 = Except.ok PUnit.unit ∧
      (rootD s.set a_i ≠ rootD s.set b_i →
        (union s a b).2.subset_count = s.subset_count - 1 ∧ 2 ≤ s.subset_count) ∧
      (rootD s.set a_i = rootD s.set b_i →
        (union s a b).2.subset_count = s.subset_count)) ∧
    (∀ a b err, (union s a b).1 = Except.error err →
      (union s a b).2.subset_count = s.subset_count) := by
  have hwf := reachable_wf s hr
  constructor
  · intro a b a_i b_i ha hb
    obtain ⟨hok, _, _, _, _, hsame, hdiff⟩ := union_ok_effect s hwf a b a_i b_i ha hb
    refine ⟨hok, fun hne => ?_, fun heq => (hsame heq).1⟩
    obtain ⟨hc, hge, _⟩ := hdiff hne
    exact ⟨hc, hge⟩
  · intro a b err herr
    cases hla : lookupIdx s.map a with
    | none => rw [union_err_left s a b hla]
    | some a_i =>
      cases hlb : lookupIdx s.map b with
      | none => rw [union_err_right s a b a_i hla hlb]
      | some b_i =>
        obtain ⟨hok, _⟩ := union_ok_effect s hwf a b a_i b_i hla hlb
        rw [hok] at herr
        exact Except.noConfusion herr

/-- Witness for C2: on the two-singleton instance built from `[0, 1]`, the
merging union `union(0, 1)` drops the count from 2 to 1, and the no-op
union `union(0, 0)` keeps it at 2. -/
theorem C2_union_count_law_witness :
    (union (from_iter [0, 1] 0).1 (0 : Nat) 1).2.subset_count =
      (from_iter [0, 1] 0).1.subset_count - 1 ∧
    2 ≤ (from_iter [0, 1] 0).1.subset_count ∧
    (union (from_iter [0, 1] 0).1 (0 : Nat) 0).2.subset_count =
      (from_iter [0, 1] 0).1.subset_count :=
  have hinst : Reachable (from_iter [(0 : Nat), 1] 0).1 :=
    ⟨(from_iter [0, 1] 0).1, Or.inr ⟨[0, 1], 0, rfl⟩, ReachableFrom.refl _⟩
  ⟨(((C2_union_count_law _ hinst).1 0 1 0 1 rfl rfl).2.1 (by decide)).1,
    (((C2_union_count_law _ hinst).1 0 1 0 1 rfl rfl).2.1 (by decide)).2,
    ((C2_union_count_law _ hinst).1 0 0 0 0 rfl rfl).2.2 rfl⟩

/-- Claim C5: the version counter is bumped exactly once by a successful
insert and by a union that merges two distinct roots, and is untouched by a
failed insert, a failed union, a union whose arguments share a root
(including `union(a, a)`), and by every query. -/
theorem C5_version_discipline (s : HashDisjointSet α) (hr : Reachable s) :
    (∀ e, (insert s e).1 = Except.ok PUnit.unit → (insert s e).2.ver = s.ver + 1) ∧
    (∀ e err, (insert s e).1 = Except.error err → (insert s e).2.ver = s.ver) ∧
    (∀ a b a_i b_i, lookupIdx s.map a = some a_i → lookupIdx s.map b = some b_i →
      (rootD s.set a_i ≠ rootD s.set b_i → (union s a b).2.ver = s.ver + 1) ∧
      (rootD s.set a_i = rootD s.set b_i → (union s a b).2.ver = s.ver)) ∧
    (∀ a a_i, lookupIdx s.map a = some a_i → (union s a a).2.ver = s.ver) ∧
    (∀ a b err, (union s a b).1 = Except.error err → (union s a b).2.ver = s.ver) ∧
    (∀ e, (find s e).2.ver = s.ver) ∧
    (∀ a b, (same_subset s a b).2.ver = s.ver) ∧
    (∀ e, (subset_size s e).2.ver = s.ver) ∧
    (∀ e, (subset_containing s e).2.ver = s.ver) ∧
    (all_subsets s).2.ver = s.ver := by
  have hwf := reachable_wf s hr
  refine ⟨?_, ?_, ?_, ?_, ?_, ?_, ?_, ?_, ?_, ?_⟩
  · intro e hok
    cases hl : lookupIdx s.map e with
    | some i =>
      rw [insert_dup s e i hl] at hok
      exact Except.noConfusion hok
    | none => exact (insert_ok_effect s hwf e hl).2.2.1
  · intro e err herr
    cases hl : lookupIdx s.map e with
    | some i => rw [insert_dup s e i hl]
    | none =>
      have : (insert s e).1 = Except.ok PUnit.unit := by
        simp only [insert, hl]
      rw [this] at herr
      exact Except.noConfusion herr
  · intro a b a_i b_i ha hb
    obtain ⟨_, _, _, _, _, hsame, hdiff⟩ := union_ok_effect s hwf a b a_i b_i ha hb
    exact ⟨fun hne => (hdiff hne).2.2, fun heq => (hsame heq).2.1⟩
  · intro a a_i ha
    obtain ⟨_, _, _, _, _, hsame, _⟩ := union_ok_effect s hwf a a a_i a_i ha ha
    exact (hsame rfl).2.1
  · intro a b err herr
    cases hla : lookupIdx s.map a with
    | none => rw [union_err_left s a b hla]
    | some a_i =>
      cases hlb : lookupIdx s.map b with
      | none => rw [union_err_right s a b a_i hla hlb]
      | some b_i =>
        obtain ⟨hok, _⟩ := union_ok_effect s hwf a b a_i b_i hla hlb
        rw [hok] at herr
        exact Except.noConfusion herr
  · intro e
    cases hl : lookupIdx s.map e with
    | none => rw [find_err s e hl]
    | some i => exact (find_ok s hwf e i hl).2.1
  · intro a b
    cases hla : lookupIdx s.map a with
    | none => rw [same_subset_err_left s a b hla]
    | some a_i =>
      cases hlb : lookupIdx s.map b with
      | none => rw [same_subset_err_right s a b a_i hla hlb]
      | some b_i => exact (same_subset_ok s hwf a b a_i b_i hla hlb).2.1
  · intro e
    cases hl : lookupIdx s.map e with
    | none => rw [subset_size_err s e hl]
    | some i => exact (subset_size_ok s hwf e i hl).2.1
  · intro e
    cases hl : lookupIdx s.map e with
    | none => rw [subset_containing_err s e hl]
    | some i =>
      by_cases hc : s.subset_count = 0
      · rw [(subset_containing_panic_effect s hwf e i hl hc).1]
      · exact (subset_containing_ok s hwf e i hl hc).2.1
  · by_cases hc : s.subset_count = 0
    · rw [all_subsets_panics s hc]
    · exact (all_subsets_ok s hwf hc).2.1

/-- Witness for C5: on the instance built from `[0, 1]` (version 0), a
fresh insert bumps the version to 1, `union(0, 0)` keeps it at 0, and a
find keeps it at 0. -/
theorem C5_version_discipline_witness :
    (insert (from_iter [0, 1] 0).1 (5 : Nat)).2.ver = (from_iter [0, 1] 0).1.ver + 1 ∧
    (union (from_iter [0, 1] 0).1 (0 : Nat) 0).2.ver = (from_iter [0, 1] 0).1.ver ∧
    (find (from_iter [0, 1] 0).1 (0 : Nat)).2.ver = (from_iter [0, 1] 0).1.ver :=
  have hinst : Reachable (from_iter [(0 : Nat), 1] 0).1 :=
    ⟨(from_iter [0, 1] 0).1, Or.inr ⟨[0, 1], 0, rfl⟩, ReachableFrom.refl _⟩
  ⟨(C5_version_discipline _ hinst).1 5 rfl,
    (C5_version_discipline _ hinst).2.2.2.1 0 0 rfl,
    (C5_version_discipline _ hinst).2.2.2.2.2.1 0⟩

/-- Claim C6: in every reachable state, the size field stored at each root
equals the number of registered indices resolving to that root, and the
sizes of all roots sum to the number of registered elements. -/
theorem C6_size_invariant (s : HashDisjointSet α) (hr : Reachable s) :
    (∀ r, r < s.set.length → isRoot s.set r →
      sizeAt s.set r =
        ((Finset.range s.set.length).filter (fun i => rootD s.set i = r)).card) ∧
    Finset.sum ((Finset.range s.set.length).filter (fun r => isRoot s.set r))
      (fun r => sizeAt s.set r) = s.map.length := by
  have hwf := reachable_wf s hr
  have hlen : s.map.length = s.set.length := by
    have := congrArg List.length hwf.idx_range
    simpa using this
  refine ⟨hwf.size_inv, ?_⟩
  have hmaps : ∀ i ∈ Finset.range s.set.length, rootD s.set i ∈
      (Finset.range s.set.length).filter (fun r => isRoot s.set r) := by
    intro i hi
    have hi2 := Finset.mem_range.mp hi
    rw [Finset.mem_filter, Finset.mem_range]
    exact ⟨rootD_lt s.set (forestWF_of_WF s hwf) i hi2,
      rootD_isRoot s.set (forestWF_of_WF s hwf) i hi2⟩
  have hcard := Finset.card_eq_sum_card_fiberwise hmaps
  rw [Finset.card_range] at hcard
  rw [hlen]
  conv_rhs => rw [hcard]
  apply Finset.sum_congr rfl
  intro r hrmem
  rw [Finset.mem_filter, Finset.mem_range] at hrmem
  exact hwf.size_inv r hrmem.1 hrmem.2

/-- Witness for C6 on a concrete reachable state: after merging 0 and 1 in
the instance built from `[0, 1, 2]`, the invariant instantiates at the
surviving root, whose size 2 counts its two members. -/
theorem C6_size_invariant_witness :
    0 < (union (from_iter [0, 1, 2] 0).1 (0 : Nat) 1).2.set.length ∧
    isRoot (union (from_iter [0, 1, 2] 0).1 (0 : Nat) 1).2.set 0 ∧
    sizeAt (union (from_iter [0, 1, 2] 0).1 (0 : Nat) 1).2.set 0 =
      ((Finset.range (union (from_iter [0, 1, 2] 0).1 (0 : Nat) 1).2.set.length).filter
        (fun i => rootD (union (from_iter [0, 1, 2] 0).1 (0 : Nat) 1).2.set i = 0)).card :=
  have hinst : Reachable (union (from_iter [(0 : Nat), 1, 2] 0).1 0 1).2 :=
    ⟨(from_iter [0, 1, 2] 0).1, Or.inr ⟨[0, 1, 2], 0, rfl⟩,
      ReachableFrom.tail _ _ _ (ReachableFrom.refl _) (Step.unionStep _ 0 1)⟩
  ⟨by decide, by decide,
    (C6_size_invariant _ hinst).1 0 (by decide) (by decide)⟩

/-- Claim C7: on every reachable state, `find_internal` run on the index of
a registered element terminates (its result is independent of any fuel at
least `set.length`), returns the root of that element's tree (an ancestor
that is its own parent, unique among the ancestors), and in doing so
rewrites the parent of exactly the visited non-root chain nodes to their
original grandparent — never directly to the final root — leaving every
other node untouched. -/
theorem C7_find_internal_correct (s : HashDisjointSet α) (hr : Reachable s)
    (e : α) (i : Nat) (h : lookupIdx s.map e = some i) :
    isRoot s.set (findInternal s.set.length s.set i).1 ∧
    ReachesRoot s.set i (findInternal s.set.length s.set i).1 ∧
    (∀ r, ReachesRoot s.set i r → r = (findInternal s.set.length s.set i).1) ∧
    (∀ fuel, s.set.length ≤ fuel →
      findInternal fuel s.set i = findInternal s.set.length s.set i) ∧
    (∃ K,
      (∀ t, t < K → ¬ isRoot s.set (pIter s.set t i)) ∧
      pIter s.set K i = (findInternal s.set.length s.set i).1 ∧
      (∀ v, (∃ t, t < K ∧ pIter s.set t i = v) →
        parentAt (findInternal s.set.length s.set i).2 v =
          parentAt s.set (parentAt s.set v)) ∧
      (∀ v, (∀ t, t < K → pIter s.set t i ≠ v) →
        parentAt (findInternal s.set.length s.set i).2 v = parentAt s.set v)) := by
  have hwf := reachable_wf s hr
  have hi := lookupIdx_lt s hwf e i h
  obtain ⟨k, hklt, hkroot⟩ := exists_root_lt s.set hwf.bounded i hi (hwf.rooted i hi)
  obtain ⟨K, hKle, hKnr, hKroot, hKfst, _, _, hKvis, hKun⟩ :=
    findInternal_spec k s.set.length s.set i hwf.bounded hi hkroot (by omega)
  have hroot1 : isRoot s.set (findInternal s.set.length s.set i).1 := by
    rw [hKfst]
    exact hKroot
  have hreach1 : ReachesRoot s.set i (findInternal s.set.length s.set i).1 :=
    ⟨K, hKfst.symm, hroot1⟩
  refine ⟨hroot1, hreach1, ?_, ?_, ⟨K, hKnr, hKfst.symm, hKvis, hKun⟩⟩
  · intro r hreach
    exact reachesRoot_unique s.set i r _ hreach hreach1
  · intro fuel hfuel
    exact findInternal_fuel_irrel k fuel s.set.length s.set i hkroot (by omega) (by omega)

/-- Witness for C7: on the instance built from `[0, 1, 2]` after merging
everything under root 0, resolving element 2 returns root 0 and twice the
fuel gives the same result. -/
theorem C7_find_internal_correct_witness :
    isRoot (union (union (from_iter [0, 1, 2] 0).1 (0 : Nat) 1).2 (2 : Nat) 0).2.set
      (findInternal 3 (union (union (from_iter [0, 1, 2] 0).1 (0 : Nat) 1).2 (2 : Nat) 0).2.set 2).1 ∧
    findInternal 6 (union (union (from_iter [0, 1, 2] 0).1 (0 : Nat) 1).2 (2 : Nat) 0).2.set 2 =
      findInternal 3 (union (union (from_iter [0, 1, 2] 0).1 (0 : Nat) 1).2 (2 : Nat) 0).2.set 2 :=
  have hinst : Reachable (union (union (from_iter [(0 : Nat), 1, 2] 0).1 0 1).2 2 0).2 :=
    ⟨(from_iter [0, 1, 2] 0).1, Or.inr ⟨[0, 1, 2], 0, rfl⟩,
      ReachableFrom.tail _ _ _
        (ReachableFrom.tail _ _ _ (ReachableFrom.refl _) (Step.unionStep _ 0 1))
        (Step.unionStep _ 2 0)⟩
  ⟨(C7_find_internal_correct _ hinst 2 2 rfl).1,
    (C7_find_internal_correct _ hinst 2 2 rfl).2.2.2.1 6 (by decide)⟩

/-- Claim C8: bulk construction silently coalesces duplicates — the first
occurrence wins and a later duplicate is a no-op, with no error — ends with
`subset_count` equal to the number of distinct input elements, and starts
the version at 0; loading the 15 bytes of `This is a test.` gives
`subset_count() = 9`. -/
theorem C8_bulk_construction (l : List α) (e : α) (c : Nat) :
    (from_iter l c).1.ver = 0 ∧
    (from_iter l c).1.subset_count = l.dedup.length ∧
    (e ∈ l → from_iter (l ++ [e]) c = from_iter l c) ∧
    (∀ c2, (from_iter thisIsATest c2).1.subset_count = 9) := by
  refine ⟨rfl, from_iter_subset_count l c, fun h => from_iter_dup_noop l e c h, ?_⟩
  intro c2
  rw [from_iter_subset_count]
  decide

/-- Witness for C8: appending the duplicate `1` to `[0, 1]` changes nothing,
and the test string yields 9 subsets. -/
theorem C8_bulk_construction_witness :
    from_iter ([0, 1] ++ [1]) 0 = from_iter [(0 : Nat), 1] 0 ∧
    (from_iter thisIsATest 0).1.subset_count = 9 :=
  ⟨(C8_bulk_construction [(0 : Nat), 1] 1 0).2.2.1 (by decide),
    (C8_bulk_construction [(0 : Nat), 1] 1 0).2.2.2 0⟩

/-- Claim C10: every query — `find`, `same_subset`, `subset_size`,
`subset_containing`, `all_subsets` — preserves the partition: the registry
and `subset_count` are unchanged and, although path splitting rewrites
parent pointers, every registered index resolves to the same root as before
the call. -/
theorem C10_queries_preserve_partition (s : HashDisjointSet α) (hr : Reachable s) :
    (∀ e, (find s e).2.map = s.map ∧ (find s e).2.subset_count = s.subset_count ∧
      (∀ j, j < s.set.length → rootD (find s e).2.set j = rootD s.set j)) ∧
    (∀ a b, (same_subset s a b).2.map = s.map ∧
      (same_subset s a b).2.subset_count = s.subset_count ∧
      (∀ j, j < s.set.length → rootD (same_subset s a b).2.set j = rootD s.set j)) ∧
    (∀ e, (subset_size s e).2.map = s.map ∧
      (subset_size s e).2.subset_count = s.subset_count ∧
      (∀ j, j < s.set.length → rootD (subset_size s e).2.set j = rootD s.set j)) ∧
    (∀ e, (subset_containing s e).2.map = s.map ∧
      (subset_containing s e).2.subset_count = s.subset_count ∧
      (∀ j, j < s.set.length → rootD (subset_containing s e).2.set j = rootD s.set j)) ∧
    ((all_subsets s).2.map = s.map ∧ (all_subsets s).2.subset_count = s.subset_count ∧
      (∀ j, j < s.set.length → rootD (all_subsets s).2.set j = rootD s.set j)) := by
  have hwf := reachable_wf s hr
  refine ⟨?_, ?_, ?_, ?_, ?_⟩
  · intro e
    cases hl : lookupIdx s.map e with
    | none =>
      rw [find_err s e hl]
      exact ⟨rfl, rfl, fun j _ => rfl⟩
    | some i =>
      obtain ⟨_, _, hmap, hcount, _, _, hequiv⟩ := find_ok s hwf e i hl
      exact ⟨hmap, hcount, hequiv.2.2.2.2⟩
  · intro a b
    cases hla : lookupIdx s.map a with
    | none =>
      rw [same_subset_err_left s a b hla]
      exact ⟨rfl, rfl, fun j _ => rfl⟩
    | some a_i =>
      cases hlb : lookupIdx s.map b with
      | none =>
        rw [same_subset_err_right s a b a_i hla hlb]
        exact ⟨rfl, rfl, fun j _ => rfl⟩
      | some b_i =>
        obtain ⟨_, _, hmap, hcount, _, _, hequiv⟩ := same_subset_ok s hwf a b a_i b_i hla hlb
        exact ⟨hmap, hcount, hequiv.2.2.2.2⟩
  · intro e
    cases hl : lookupIdx s.map e with
    | none =>
      rw [subset_size_err s e hl]
      exact ⟨rfl, rfl, fun j _ => rfl⟩
    | some i =>
      obtain ⟨_, _, hmap, hcount, _, _, hequiv⟩ := subset_size_ok s hwf e i hl
      exact ⟨hmap, hcount, hequiv.2.2.2.2⟩
  · intro e
    cases hl : lookupIdx s.map e with
    | none =>
      rw [subset_containing_err s e hl]
      exact ⟨rfl, rfl, fun j _ => rfl⟩
    | some i =>
      by_cases hc : s.subset_count = 0
      · have hi := lookupIdx_lt s hwf e i hl
        have hfe := findInternal_equiv s.set (forestWF_of_WF s hwf) i hi s.set.length le_rfl
        rw [(subset_containing_panic_effect s hwf e i hl hc).1]
        exact ⟨rfl, rfl, hfe.1.2.2.2.2⟩
      · obtain ⟨_, _, hmap, hcount, _, _, hequiv⟩ := subset_containing_ok s hwf e i hl hc
        exact ⟨hmap, hcount, hequiv.2.2.2.2⟩
  · by_cases hc : s.subset_count = 0
    · rw [all_subsets_panics s hc]
      exact ⟨rfl, rfl, fun j _ => rfl⟩
    · obtain ⟨_, _, hmap, hcount, _, _, hequiv⟩ := all_subsets_ok s hwf hc
      exact ⟨hmap, hcount, hequiv.2.2.2.2⟩

/-- Witness for C10: on the instance built from `[0, 1]`, a find on 0
leaves the registry and count unchanged and element 1 still resolves to
root 1. -/
theorem C10_queries_preserve_partition_witness :
    (find (from_iter [0, 1] 0).1 (0 : Nat)).2.map = (from_iter [0, 1] 0).1.map ∧
    (find (from_iter [0, 1] 0).1 (0 : Nat)).2.subset_count =
      (from_iter [0, 1] 0).1.subset_count ∧
    rootD (find (from_iter [0, 1] 0).1 (0 : Nat)).2.set 1 =
      rootD (from_iter [0, 1] 0).1.set 1 :=
  have hinst : Reachable (from_iter [(0 : Nat), 1] 0).1 :=
    ⟨(from_iter [0, 1] 0).1, Or.inr ⟨[0, 1], 0, rfl⟩, ReachableFrom.refl _⟩
  ⟨((C10_queries_preserve_partition _ hinst).1 0).1,
    ((C10_queries_preserve_partition _ hinst).1 0).2.1,
    ((C10_queries_preserve_partition _ hinst).1 0).2.2 1 (by decide)⟩

theorem find_ticket_set_id (s : HashDisjointSet α) (e : α) (t : SubsetTicket)
    (h : (find s e).1 = Except.ok t) : t.set_id = s.set_id := by
  cases hl : lookupIdx s.map e with
  | none =>
    rw [find_err s e hl] at h
    exact Except.noConfusion h
  | some i =>
    have hred : (find s e).1 =
        Except.ok ⟨s.ver, (findInternal s.set.length s.set i).1, s.set_id⟩ := by
      simp only [find, hl]
    rw [hred] at h
    rw [← Except.ok.inj h]

theorem instanceOf_set_id (c : Nat) (s : HashDisjointSet α) (h : InstanceOf c s) :
    s.set_id = c ∧ WF s := by
  obtain ⟨s0, hinit, hreach⟩ := h
  have hwf0 : WF s0 := by
    rcases hinit with h0 | ⟨l, h0⟩
    · rw [h0]; exact WF_default c
    · rw [h0]; exact WF_from_iter l c
  have hwf := reachableFrom_wf s0 s hwf0 hreach
  obtain ⟨hid, _, _, _⟩ := reachableFrom_frame s0 s hwf0 hreach
  refine ⟨?_, hwf⟩
  rw [hid]
  rcases hinit with h0 | ⟨l, h0⟩
  · rw [h0]
    exact rfl
  · rw [h0]
    exact rfl

/-- Claim C1: within one instance, the ticket of `find(x)` (taken at a
state `s1`) equals the ticket of `find(y)` (taken at a later state `s2` of
the same instance) exactly when both calls observed the same version and
`same_subset(x, y)` holds — ticket equality compares instance identity,
version, and resolved root index. -/
theorem C1_ticket_equality (s1 s2 : HashDisjointSet α) (hr : Reachable s1)
    (hreach : ReachableFrom s1 s2) (x y : α) (x_i y_i : Nat)
    (hx : lookupIdx s1.map x = some x_i) (hy : lookupIdx s2.map y = some y_i)
    (t1 t2 : SubsetTicket)
    (ht1 : (find s1 x).1 = Except.ok t1) (ht2 : (find s2 y).1 = Except.ok t2) :
    t1 = t2 ↔ (s1.ver = s2.ver ∧ (same_subset s2 x y).1 = Except.ok true) := by
  have hwf1 := reachable_wf s1 hr
  have hwf2 := reachableFrom_wf s1 s2 hwf1 hreach
  obtain ⟨hid, hverle, ⟨ext, hmapext⟩, hframe⟩ := reachableFrom_frame s1 s2 hwf1 hreach
  have hx2 : lookupIdx s2.map x = some x_i := by
    rw [hmapext]
    exact lookupIdx_append_left_some s1.map ext x x_i hx
  have hxi := lookupIdx_lt s1 hwf1 x x_i hx
  have h1 := (find_ok s1 hwf1 x x_i hx).1
  rw [ht1] at h1
  have ht1eq : t1 = ⟨s1.ver, rootD s1.set x_i, s1.set_id⟩ := Except.ok.inj h1
  have h2 := (find_ok s2 hwf2 y y_i hy).1
  rw [ht2] at h2
  have ht2eq : t2 = ⟨s2.ver, rootD s2.set y_i, s2.set_id⟩ := Except.ok.inj h2
  have hss := (same_subset_ok s2 hwf2 x y x_i y_i hx2 hy).1
  constructor
  · intro heq
    rw [ht1eq, ht2eq] at heq
    have hv : s1.ver = s2.ver := congrArg SubsetTicket.ver heq
    have hidq : rootD s1.set x_i = rootD s2.set y_i := congrArg SubsetTicket.id heq
    have hpres := (hframe hv.symm).2.2.2 x_i hxi
    refine ⟨hv, ?_⟩
    rw [hss]
    congr 1
    rw [decide_eq_true_eq, hpres, ← hidq]
  · rintro ⟨hv, htrue⟩
    rw [hss] at htrue
    have hdq := Except.ok.inj htrue
    rw [decide_eq_true_eq] at hdq
    have hpres := (hframe hv.symm).2.2.2 x_i hxi
    have hroots : rootD s1.set x_i = rootD s2.set y_i := by
      rw [← hpres]
      exact hdq
    rw [ht1eq, ht2eq, hv, hid, hroots]

/-- Witness for C1: on the instance built from `[0, 1]`, `find(0)` taken
twice in the same state yields equal tickets, and the law then gives the
same version and `same_subset(0, 0) = true`. -/
theorem C1_ticket_equality_witness :
    (from_iter [(0 : Nat), 1] 0).1.ver = (from_iter [(0 : Nat), 1] 0).1.ver ∧
    (same_subset (from_iter [(0 : Nat), 1] 0).1 0 0).1 = Except.ok true :=
  have hinst : Reachable (from_iter [(0 : Nat), 1] 0).1 :=
    ⟨(from_iter [0, 1] 0).1, Or.inr ⟨[0, 1], 0, rfl⟩, ReachableFrom.refl _⟩
  (C1_ticket_equality _ _ hinst (ReachableFrom.refl _) 0 0 0 0 rfl rfl
    ⟨0, 0, 0⟩ ⟨0, 0, 0⟩ rfl rfl).mp rfl

/-- Claim C9: instances carry identities minted from a strictly increasing
process-wide counter — construction reads the counter `c` and leaves `c + 1`
for every later construction — so tickets produced by `find` on two
instances created at different counter values are never equal, whatever
elements were loaded and even if versions and root indices coincide. -/
theorem C9_instance_isolation (c1 c2 : Nat) (hne : c1 ≠ c2)
    (s1 s2 : HashDisjointSet α) (h1 : InstanceOf c1 s1) (h2 : InstanceOf c2 s2)
    (x y : α) (t1 t2 : SubsetTicket)
    (ht1 : (find s1 x).1 = Except.ok t1) (ht2 : (find s2 y).1 = Except.ok t2) :
    t1 ≠ t2 ∧
    (defaultWithCounter (α := α) c1).2 = c1 + 1 ∧
    (∀ l, (from_iter (α := α) l c1).2 = c1 + 1) := by
  refine ⟨?_, rfl, fun l => rfl⟩
  have e1 := find_ticket_set_id s1 x t1 ht1
  have e2 := find_ticket_set_id s2 y t2 ht2
  obtain ⟨hid1, _⟩ := instanceOf_set_id c1 s1 h1
  obtain ⟨hid2, _⟩ := instanceOf_set_id c2 s2 h2
  intro heq
  apply hne
  rw [← hid1, ← hid2, ← e1, ← e2, heq]

/-- Witness for C9: two instances loaded from the same input `[0]` at
counters 0 and 1 give `find(0)` tickets that agree on version and root
index yet are distinct. -/
theorem C9_instance_isolation_witness :
    ((find (from_iter [(0 : Nat)] 0).1 0).1 = Except.ok ⟨0, 0, 0⟩) ∧
    ((find (from_iter [(0 : Nat)] 1).1 0).1 = Except.ok ⟨0, 0, 1⟩) ∧
    (⟨0, 0, 0⟩ : SubsetTicket) ≠ ⟨0, 0, 1⟩ :=
  have h1 : InstanceOf 0 (from_iter [(0 : Nat)] 0).1 :=
    ⟨(from_iter [0] 0).1, Or.inr ⟨[0], rfl⟩, ReachableFrom.refl _⟩
  have h2 : InstanceOf 1 (from_iter [(0 : Nat)] 1).1 :=
    ⟨(from_iter [0] 1).1, Or.inr ⟨[0], rfl⟩, ReachableFrom.refl _⟩
  ⟨rfl, rfl,
    (C9_instance_isolation 0 1 (by decide) _ _ h1 h2 0 0 ⟨0, 0, 0⟩ ⟨0, 0, 1⟩ rfl rfl).1⟩

end UnionFindRs
